import Mathlib

/-!
Verification of the palmistry poker-equity core: a shallow embedding of the
bitboard, rank-mask tables, evaluator, score packing and equity engines,
with theorems about the behaviour of those functions.

Machine integers are modelled as `Nat` with explicit wrapping (`% 2^w`)
where the Rust code can wrap; fallible functions return `Except`;
the unbounded rejection-sampling loops are modelled with an explicit
fuel bound (`none` = the loop has not terminated within the bound).
-/

set_option maxRecDepth 10000

namespace Palmistry

/-! ### Bit-level utilities (u16 / u64 arithmetic on Nat) -/

/-- bitboard.rs: mask for the low 13 bits. -/
def MASK13 : Nat := 8191

/-- Rust cast of an i8 value to u8 (wraps modulo 256). -/
def i8_as_u8 (x : Int) : Nat := (x % 256).toNat

/-- Rust cast of an i8 value to u16 (wraps modulo 65536). -/
def i8_as_u16 (x : Int) : Nat := (x % 65536).toNat

/-- Rust u16 bitwise complement `!x`, that is 65535 XOR x. -/
def not16 (x : Nat) : Nat := 65535 ^^^ x

/-- The Rust u16 expression `1u16 << k`.  Release-mode Rust masks the shift
amount to the bit width; every reachable call site has k ≤ 15, where this
is an ordinary shift. -/
def bit16 (k : Nat) : Nat := 1 <<< (k % 16)

/-! ### lut13.rs: tables over 13-bit masks.
The three tables are built (at compile time) from the pure functions
`popcount_u16`, `hibit_index_u16` and `straight_end_u16`; a table lookup is
modelled as applying the corresponding function to the masked index. -/

/-- lut13.rs WHEEL_MASK: the A-2-3-4-5 pattern (bits 12, 0, 1, 2, 3). -/
def WHEEL_MASK : Nat := (1 <<< 12) ||| (1 <<< 0) ||| (1 <<< 1) ||| (1 <<< 2) ||| (1 <<< 3)

/-- lut13.rs popcount_u16, the loop `while x != 0 { c += x & 1; x >>= 1 }`.
For a u16 argument the loop runs at most 16 times, made explicit here by a
structural bound. -/
def popcount_go : Nat → Nat → Nat
  | 0, _ => 0
  | fuel + 1, x => if x = 0 then 0 else (x &&& 1) + popcount_go fuel (x >>> 1)

def popcount_u16 (x : Nat) : Nat := popcount_go 16 x

/-- lut13.rs hibit_index_u16: scan bits 12 down to 0 for the highest set bit. -/
def hibit_scan : Nat → Nat → Int
  | 0, _ => -1
  | i + 1, x => if x &&& (1 <<< i) ≠ 0 then (i : Int) else hibit_scan i x

def hibit_index_u16 (x : Nat) : Int := if x = 0 then -1 else hibit_scan 13 x

/-- lut13.rs straight_end_u16: check the 5-bit windows with start 8 down to
start 0, then the wheel pattern; `straight_scan (s+1)` checks the window at
start `s` and recurses downward. -/
def straight_scan : Nat → Nat → Int
  | 0, mask => if mask &&& WHEEL_MASK = WHEEL_MASK then 3 else -1
  | s + 1, mask =>
    if mask &&& (31 <<< s) = 31 <<< s then (s : Int) + 4 else straight_scan s mask

def straight_end_u16 (mask : Nat) : Int := straight_scan 9 mask

/-- lut13.rs popcnt13 (POPCNT13 table lookup at the masked index). -/
def popcnt13 (mask : Nat) : Nat := popcount_u16 (mask &&& MASK13)

/-- lut13.rs hibit13 (HIBIT13 table lookup at the masked index). -/
def hibit13 (mask : Nat) : Int := hibit_index_u16 (mask &&& MASK13)

/-- lut13.rs straight_end13 (STRAIGHT_END13 table lookup at the masked index). -/
def straight_end13 (mask : Nat) : Int := straight_end_u16 (mask &&& MASK13)

/-! ### score.rs -/

/-- score.rs Category: hand categories, higher is better. -/
inductive Category where
  | HighCard
  | OnePair
  | TwoPair
  | Trips
  | Straight
  | Flush
  | FullHouse
  | Quads
  | StraightFlush
  deriving DecidableEq

/-- The numeric value of a category (`cat as u32` in Rust). -/
def Category.val : Category → Nat
  | .HighCard => 0
  | .OnePair => 1
  | .TwoPair => 2
  | .Trips => 3
  | .Straight => 4
  | .Flush => 5
  | .FullHouse => 6
  | .Quads => 7
  | .StraightFlush => 8

/-- score.rs pack_score: category in bits 20..23, then five 4-bit tie-break
rank slots, most significant first.  The packed Score is its u32 value. -/
def pack_score (cat : Category) (r0 r1 r2 r3 r4 : Nat) : Nat :=
  (cat.val <<< 20) ||| (r0 <<< 16) ||| (r1 <<< 12) ||| (r2 <<< 8) ||| (r3 <<< 4) ||| (r4 &&& 15)

/-! ### card.rs / bitboard.rs -/

/-- card.rs Card: a suit (Clubs=0 .. Spades=3) and a rank (Two=0 .. Ace=12). -/
structure Card where
  suit : Fin 4
  rank : Fin 13
  deriving DecidableEq

/-- bitboard.rs BitBoard4x13: four suit masks, each using only the low
13 bits. -/
structure BitBoard4x13 where
  s0 : Nat
  s1 : Nat
  s2 : Nat
  s3 : Nat
  deriving DecidableEq

namespace BitBoard4x13

/-- An empty board. -/
def new : BitBoard4x13 := ⟨0, 0, 0, 0⟩

/-- bitboard.rs clear. -/
def clear (_b : BitBoard4x13) : BitBoard4x13 := ⟨0, 0, 0, 0⟩

/-- Read of `suits[i]`.  Every call site has i < 4 (for `add_id`, because the
card id is < 52); an index ≥ 4 is outside the program's domain (the Rust
array access would panic) and is mapped to the last suit here. -/
def suit (b : BitBoard4x13) (i : Nat) : Nat :=
  if i = 0 then b.s0 else if i = 1 then b.s1 else if i = 2 then b.s2 else b.s3

/-- Write of `suits[i]`; same domain remark as `suit`. -/
def setSuit (b : BitBoard4x13) (i : Nat) (v : Nat) : BitBoard4x13 :=
  if i = 0 then { b with s0 := v }
  else if i = 1 then { b with s1 := v }
  else if i = 2 then { b with s2 := v }
  else { b with s3 := v }

/-- bitboard.rs add_card: set the card's rank bit in its suit mask; the Bool
is the `already present` result. -/
def add_card (b : BitBoard4x13) (c : Card) : Bool × BitBoard4x13 :=
  let s := (c.suit : Nat)
  let bit := 1 <<< (c.rank : Nat)
  let old := b.suit s
  (old &&& bit != 0, b.setSuit s ((old ||| bit) &&& MASK13))

/-- bitboard.rs add_id: fast path from a 0..51 card id
(suit = id / 13, rank = id % 13). -/
def add_id (b : BitBoard4x13) (id : Nat) : Bool × BitBoard4x13 :=
  let s := id / 13
  let r := id % 13
  let bit := 1 <<< r
  let old := b.suit s
  (old &&& bit != 0, b.setSuit s ((old ||| bit) &&& MASK13))

/-- bitboard.rs remove_card: clear the card's rank bit (`& !bit`). -/
def remove_card (b : BitBoard4x13) (c : Card) : BitBoard4x13 :=
  let s := (c.suit : Nat)
  let bit := 1 <<< (c.rank : Nat)
  b.setSuit s ((b.suit s &&& not16 bit) &&& MASK13)

/-- bitboard.rs suit_mask. -/
def suit_mask (b : BitBoard4x13) (i : Fin 4) : Nat := b.suit i &&& MASK13

/-- bitboard.rs ranks_any: union of ranks across all suits. -/
def ranks_any (b : BitBoard4x13) : Nat := (b.s0 ||| b.s1 ||| b.s2 ||| b.s3) &&& MASK13

/-- bitboard.rs ge2: ranks appearing in at least two suits. -/
def ge2 (b : BitBoard4x13) : Nat :=
  ((b.s0 &&& b.s1) ||| (b.s0 &&& b.s2) ||| (b.s0 &&& b.s3) |||
   (b.s1 &&& b.s2) ||| (b.s1 &&& b.s3) ||| (b.s2 &&& b.s3)) &&& MASK13

/-- bitboard.rs ge3: ranks appearing in at least three suits. -/
def ge3 (b : BitBoard4x13) : Nat :=
  ((b.s0 &&& b.s1 &&& b.s2) ||| (b.s0 &&& b.s1 &&& b.s3) |||
   (b.s0 &&& b.s2 &&& b.s3) ||| (b.s1 &&& b.s2 &&& b.s3)) &&& MASK13

/-- bitboard.rs ge4: ranks appearing in all four suits. -/
def ge4 (b : BitBoard4x13) : Nat := (b.s0 &&& b.s1 &&& b.s2 &&& b.s3) &&& MASK13

end BitBoard4x13

/-! ### evaluator.rs -/

/-- evaluator.rs has_two_or_more_bits.  (For the u16 expression `x & (x-1)`,
wrapping at x = 0 gives `0 & 0xFFFF = 0`, the same as Nat subtraction.) -/
def has_two_or_more_bits (x : Nat) : Bool := x != 0 && (x &&& (x - 1)) != 0

/-- One step of evaluator.rs top5_rank_indices_from_mask: record the MSB
index and clear that bit. -/
def top5_step (m : Nat) : Nat × Nat :=
  let idx := hibit13 m
  (i8_as_u8 idx, m &&& not16 (bit16 (i8_as_u16 idx)))

/-- evaluator.rs top5_rank_indices_from_mask: the five highest set bits,
high to low (callers guarantee at least five bits are set). -/
def top5_rank_indices_from_mask (m : Nat) : Nat × Nat × Nat × Nat × Nat :=
  let m0 := m &&& MASK13
  let p0 := top5_step m0
  let p1 := top5_step p0.2
  let p2 := top5_step p1.2
  let p3 := top5_step p2.2
  let p4 := top5_step p3.2
  (p0.1, p1.1, p2.1, p3.1, p4.1)

/-- evaluator.rs straight-flush scan: for one suit mask with at least five
cards, raise the best straight-flush end seen so far. -/
def sf_update (acc : Int) (h : Nat) : Int :=
  if 5 ≤ popcnt13 h then
    (if acc < straight_end13 h then straight_end13 h else acc)
  else acc

/-- evaluator.rs evaluate_u32, flush branch onward: the code the full-house
section falls through to when no full house is found.  Factored out of
`evaluate_u32` so the shared fall-through target is a single definition;
the arguments are the values the enclosing evaluator has computed. -/
def evaluate_rest (h0 h1 h2 h3 ranks g2 g3 g4 : Nat) : Nat :=
  let flush_mask :=
    if 5 ≤ popcnt13 h0 then h0
    else if 5 ≤ popcnt13 h1 then h1
    else if 5 ≤ popcnt13 h2 then h2
    else if 5 ≤ popcnt13 h3 then h3
    else 0
  if flush_mask ≠ 0 then
    let t := top5_rank_indices_from_mask flush_mask
    pack_score .Flush t.1 t.2.1 t.2.2.1 t.2.2.2.1 t.2.2.2.2
  else
    let se := straight_end13 ranks
    if 0 ≤ se then
      pack_score .Straight (i8_as_u8 se) 0 0 0 0
    else
      let trips := g3 &&& not16 g4
      if trips ≠ 0 then
        let tr := i8_as_u8 (hibit13 trips)
        let kmask1 := ranks &&& not16 (bit16 tr)
        let k1 := i8_as_u8 (hibit13 kmask1)
        let kmask2 := kmask1 &&& (kmask1 - 1)
        let k2 := i8_as_u8 (hibit13 kmask2)
        pack_score .Trips tr k1 k2 0 0
      else
        let pairs := g2 &&& not16 g3
        if has_two_or_more_bits pairs then
          let p1 := i8_as_u8 (hibit13 pairs)
          let pmask := pairs &&& not16 (bit16 p1)
          let p2 := i8_as_u8 (hibit13 pmask)
          let kmask := ranks &&& not16 (bit16 p1 ||| bit16 p2)
          let k := i8_as_u8 (hibit13 kmask)
          pack_score .TwoPair p1 p2 k 0 0
        else if pairs ≠ 0 then
          let pr := i8_as_u8 (hibit13 pairs)
          let kmask1 := ranks &&& not16 (bit16 pr)
          let k1 := i8_as_u8 (hibit13 kmask1)
          let kmask2 := kmask1 &&& (kmask1 - 1)
          let k2 := i8_as_u8 (hibit13 kmask2)
          let kmask3 := kmask2 &&& (kmask2 - 1)
          let k3 := i8_as_u8 (hibit13 kmask3)
          pack_score .OnePair pr k1 k2 k3 0
        else
          let t := top5_rank_indices_from_mask ranks
          pack_score .HighCard t.1 t.2.1 t.2.2.1 t.2.2.2.1 t.2.2.2.2

/-- evaluator.rs evaluate_u32: map a bitboard to a packed u32 score,
checking the hand categories in descending strength order. -/
def evaluate_u32 (hand : BitBoard4x13) : Nat :=
  let h0 := hand.s0 &&& MASK13
  let h1 := hand.s1 &&& MASK13
  let h2 := hand.s2 &&& MASK13
  let h3 := hand.s3 &&& MASK13
  let ranks := (h0 ||| h1 ||| h2 ||| h3) &&& MASK13
  let g4 := (h0 &&& h1 &&& h2 &&& h3) &&& MASK13
  let g2 := ((h0 &&& h1) ||| (h0 &&& h2) ||| (h0 &&& h3) |||
             (h1 &&& h2) ||| (h1 &&& h3) ||| (h2 &&& h3)) &&& MASK13
  let g3 := ((h0 &&& h1 &&& h2) ||| (h0 &&& h1 &&& h3) |||
             (h0 &&& h2 &&& h3) ||| (h1 &&& h2 &&& h3)) &&& MASK13
  let best_sf := sf_update (sf_update (sf_update (sf_update (-1) h0) h1) h2) h3
  if 0 ≤ best_sf then
    pack_score .StraightFlush (i8_as_u8 best_sf) 0 0 0 0
  else if g4 ≠ 0 then
    let qr := i8_as_u8 (hibit13 g4)
    let kmask := ranks &&& not16 (bit16 qr)
    let kr := i8_as_u8 (hibit13 kmask)
    pack_score .Quads qr kr 0 0 0
  else
    let exactly3 := g3 &&& not16 g4
    if exactly3 ≠ 0 then
      let tr1 := i8_as_u8 (hibit13 exactly3)
      let pairs_only := g2 &&& not16 g3
      let pmask := pairs_only &&& not16 (bit16 tr1)
      let pr := hibit13 pmask
      if 0 ≤ pr then
        pack_score .FullHouse tr1 (i8_as_u8 pr) 0 0 0
      else
        let tr2mask := exactly3 &&& not16 (bit16 tr1)
        let tr2 := hibit13 tr2mask
        if 0 ≤ tr2 then
          pack_score .FullHouse tr1 (i8_as_u8 tr2) 0 0 0
        else evaluate_rest h0 h1 h2 h3 ranks g2 g3 g4
    else evaluate_rest h0 h1 h2 h3 ranks g2 g3 g4

/-- evaluator.rs evaluate_u32_from_ids: build a bitboard from 0..51 card
ids and evaluate it. -/
def evaluate_u32_from_ids (ids : List Nat) : Nat :=
  evaluate_u32 (ids.foldl (fun b id => (b.add_id id).2) BitBoard4x13.new)

/-! ### Sanity checks for the embedding (mirroring the repository's tests) -/

example :
    evaluate_u32_from_ids [47, 48, 49, 50, 51, 27, 15] / 2 ^ 20 =
      Category.StraightFlush.val := by decide

example :
    evaluate_u32_from_ids [12, 13, 27, 41, 3] =
      pack_score .Straight 3 0 0 0 0 := by decide

example : straight_end13 ((1 <<< 8) ||| (1 <<< 9) ||| (1 <<< 10) ||| (1 <<< 11) ||| (1 <<< 12)) = 12 := by decide

example : straight_end13 WHEEL_MASK = 3 := by decide

example : hibit13 0 = -1 ∧ hibit13 1 = 0 ∧ hibit13 (1 <<< 12) = 12 := by decide

/-! ### Specifications of the lut13 functions -/

/-- The indicator value of bit i of x (proof helper). -/
def bitv (x i : Nat) : Nat := if x.testBit i then 1 else 0

theorem mask13_eq (m : Nat) (hm : m < 8192) : m &&& MASK13 = m := by
  have : (8192 : Nat) = 2 ^ 13 := by norm_num
  have h8191 : MASK13 = 2 ^ 13 - 1 := by norm_num [MASK13]
  rw [h8191]
  exact Nat.and_pow_two_sub_one_of_lt_two_pow (this ▸ hm)

theorem popcount_go_spec (f : Nat) : ∀ x : Nat, x < 2 ^ f →
    popcount_go f x = ∑ i ∈ Finset.range f, bitv x i := by
  induction f with
  | zero =>
    intro x hx
    interval_cases x
    simp [popcount_go]
  | succ f ih =>
    intro x hx
    by_cases h0 : x = 0
    · subst h0
      simp [popcount_go, bitv]
    · rw [popcount_go, if_neg h0]
      have hx2 : x >>> 1 < 2 ^ f := by
        rw [Nat.shiftRight_succ, Nat.shiftRight_zero]
        have := Nat.pow_succ 2 f
        omega
      rw [ih (x >>> 1) hx2, Finset.sum_range_succ']
      have hb0 : bitv x 0 = x &&& 1 := by
        simp only [bitv, Nat.testBit_zero, Nat.and_one_is_mod]
        rcases Nat.mod_two_eq_zero_or_one x with h | h <;> simp [h]
      have hbs : ∀ i, bitv (x >>> 1) i = bitv x (i + 1) := by
        intro i
        simp only [bitv, Nat.testBit_add_one, Nat.shiftRight_succ, Nat.shiftRight_zero]
      simp only [hbs]
      omega

theorem popcnt13_spec (m : Nat) (hm : m < 8192) :
    popcnt13 m = ∑ i ∈ Finset.range 13, bitv m i := by
  have h16 : m < 2 ^ 16 := by omega
  rw [popcnt13, mask13_eq m hm, popcount_u16, popcount_go_spec 16 m h16]
  have h13 : ∀ i, 13 ≤ i → bitv m i = 0 := by
    intro i hi
    have : m < 2 ^ i := lt_of_lt_of_le (by omega : m < 2 ^ 13) (Nat.pow_le_pow_right (by omega) hi)
    simp [bitv, Nat.testBit_lt_two_pow this]
  rw [Finset.sum_range_succ, Finset.sum_range_succ, Finset.sum_range_succ,
    h13 13 (by omega), h13 14 (by omega), h13 15 (by omega)]
  omega

theorem testBit_iff_and_shift (x i : Nat) : x.testBit i = true ↔ x &&& (1 <<< i) ≠ 0 := by
  rw [Nat.one_shiftLeft, Nat.and_two_pow]
  have hp : 0 < 2 ^ i := pow_pos (by omega) i
  cases h : x.testBit i
  · simp
  · simp

theorem hibit_scan_mem (k : Nat) : ∀ x : Nat, (∃ j, j < k ∧ x.testBit j = true) →
    ∃ j, j < k ∧ hibit_scan k x = (j : Int) ∧ x.testBit j = true := by
  induction k with
  | zero => intro x ⟨j, hj, _⟩; omega
  | succ k ih =>
    intro x ⟨j, hj, hbit⟩
    by_cases htop : x.testBit k = true
    · refine ⟨k, by omega, ?_, htop⟩
      rw [hibit_scan, if_pos ((testBit_iff_and_shift x k).mp htop)]
    · have hcond : ¬ x &&& (1 <<< k) ≠ 0 := by
        intro hc
        exact htop ((testBit_iff_and_shift x k).mpr hc)
      rw [hibit_scan, if_neg hcond]
      have hjk : j < k := by
        rcases Nat.lt_succ_iff_lt_or_eq.mp hj with h | h
        · exact h
        · subst h; exact absurd hbit htop
      obtain ⟨j2, hj2, hv, hb⟩ := ih x ⟨j, hjk, hbit⟩
      exact ⟨j2, by omega, hv, hb⟩

theorem hibit13_spec (m : Nat) (hm : m < 8192) (hne : m ≠ 0) :
    ∃ j : Nat, j < 13 ∧ hibit13 m = (j : Int) ∧ i8_as_u8 (hibit13 m) = j ∧
      m.testBit j = true := by
  obtain ⟨j0, hj0⟩ := Nat.ne_zero_implies_bit_true hne
  have hj0lt : j0 < 13 := by
    by_contra hge
    have : m < 2 ^ j0 :=
      lt_of_lt_of_le (by omega : m < 2 ^ 13) (Nat.pow_le_pow_right (by omega) (by omega))
    rw [Nat.testBit_lt_two_pow this] at hj0
    exact Bool.false_ne_true hj0
  obtain ⟨j, hjlt, hval, hbit⟩ := hibit_scan_mem 13 m ⟨j0, hj0lt, hj0⟩
  refine ⟨j, hjlt, ?_, ?_, hbit⟩
  · rw [hibit13, mask13_eq m hm, hibit_index_u16, if_neg hne, hval]
  · rw [hibit13, mask13_eq m hm, hibit_index_u16, if_neg hne, hval, i8_as_u8]
    rw [Int.emod_eq_of_lt (by omega) (by omega)]
    omega

theorem hibit13_of_zero (m : Nat) (h : m &&& MASK13 = 0) : hibit13 m = -1 := by
  rw [hibit13, h]; rfl

theorem straight_scan_skip (k : Nat) : ∀ m : Nat,
    (∀ s, s < k → m &&& (31 <<< s) ≠ 31 <<< s) →
    straight_scan k m = straight_scan 0 m := by
  induction k with
  | zero => intro m _; rfl
  | succ k ih =>
    intro m h
    have hstep : straight_scan (k + 1) m =
        if m &&& (31 <<< k) = 31 <<< k then ((k : Int) + 4) else straight_scan k m := rfl
    rw [hstep, if_neg (h k (by omega))]
    exact ih m (fun s hs => h s (by omega))

theorem straight_end13_wheel (m : Nat) (hm : m < 8192)
    (hw : m &&& WHEEL_MASK = WHEEL_MASK)
    (hnw : ∀ s, s < 9 → m &&& (31 <<< s) ≠ 31 <<< s) :
    straight_end13 m = 3 := by
  rw [straight_end13, mask13_eq m hm, straight_end_u16, straight_scan_skip 9 m hnw,
    straight_scan, if_pos hw]

/-! ### The packed score as arithmetic -/

theorem pack_score_eq (cat : Category) (r0 r1 r2 r3 r4 : Nat)
    (h0 : r0 < 16) (h1 : r1 < 16) (h2 : r2 < 16) (h3 : r3 < 16) :
    pack_score cat r0 r1 r2 r3 r4 =
      cat.val * 1048576 + r0 * 65536 + r1 * 4096 + r2 * 256 + r3 * 16 + (r4 &&& 15) := by
  have hb4 : r4 &&& 15 < 16 := by
    have := Nat.and_le_right (n := r4) (m := 15)
    omega
  have p4 : (2 : Nat) ^ 4 = 16 := by norm_num
  have p8 : (2 : Nat) ^ 8 = 256 := by norm_num
  have p12 : (2 : Nat) ^ 12 = 4096 := by norm_num
  have p16 : (2 : Nat) ^ 16 = 65536 := by norm_num
  have p20 : (2 : Nat) ^ 20 = 1048576 := by norm_num
  have e4 : (r3 <<< 4) ||| (r4 &&& 15) = 2 ^ 4 * r3 + (r4 &&& 15) := by
    rw [Nat.shiftLeft_eq, Nat.mul_comm]
    exact (Nat.mul_add_lt_is_or (by rw [p4]; omega) r3).symm
  have e3 : (r2 <<< 8) ||| (2 ^ 4 * r3 + (r4 &&& 15)) =
      2 ^ 8 * r2 + (2 ^ 4 * r3 + (r4 &&& 15)) := by
    rw [Nat.shiftLeft_eq, Nat.mul_comm]
    exact (Nat.mul_add_lt_is_or (by rw [p8, p4]; omega) r2).symm
  have e2 : (r1 <<< 12) ||| (2 ^ 8 * r2 + (2 ^ 4 * r3 + (r4 &&& 15))) =
      2 ^ 12 * r1 + (2 ^ 8 * r2 + (2 ^ 4 * r3 + (r4 &&& 15))) := by
    rw [Nat.shiftLeft_eq, Nat.mul_comm]
    exact (Nat.mul_add_lt_is_or (by rw [p12, p8, p4]; omega) r1).symm
  have e1 : (r0 <<< 16) ||| (2 ^ 12 * r1 + (2 ^ 8 * r2 + (2 ^ 4 * r3 + (r4 &&& 15)))) =
      2 ^ 16 * r0 + (2 ^ 12 * r1 + (2 ^ 8 * r2 + (2 ^ 4 * r3 + (r4 &&& 15)))) := by
    rw [Nat.shiftLeft_eq, Nat.mul_comm]
    exact (Nat.mul_add_lt_is_or (by rw [p16, p12, p8, p4]; omega) r0).symm
  have e0 : (cat.val <<< 20) |||
      (2 ^ 16 * r0 + (2 ^ 12 * r1 + (2 ^ 8 * r2 + (2 ^ 4 * r3 + (r4 &&& 15))))) =
      2 ^ 20 * cat.val +
        (2 ^ 16 * r0 + (2 ^ 12 * r1 + (2 ^ 8 * r2 + (2 ^ 4 * r3 + (r4 &&& 15))))) := by
    rw [Nat.shiftLeft_eq, Nat.mul_comm]
    exact (Nat.mul_add_lt_is_or (by rw [p20, p16, p12, p8, p4]; omega) cat.val).symm
  rw [pack_score]
  simp only [Nat.lor_assoc]
  rw [e4, e3, e2, e1, e0, p20, p16, p12, p8, p4]
  ring

/-- C7: for two packed Scores with tie-break rank slots in 0..12, a higher
category always gives a numerically greater Score, whatever the slots are. -/
theorem C7_category_dominates (c1 c2 : Category)
    (r0 r1 r2 r3 r4 q0 q1 q2 q3 q4 : Nat)
    (hr0 : r0 ≤ 12) (hr1 : r1 ≤ 12) (hr2 : r2 ≤ 12) (hr3 : r3 ≤ 12) (_hr4 : r4 ≤ 12)
    (hq0 : q0 ≤ 12) (hq1 : q1 ≤ 12) (hq2 : q2 ≤ 12) (hq3 : q3 ≤ 12) (_hq4 : q4 ≤ 12)
    (hlt : c2.val < c1.val) :
    pack_score c2 q0 q1 q2 q3 q4 < pack_score c1 r0 r1 r2 r3 r4 := by
  rw [pack_score_eq c2 q0 q1 q2 q3 q4 (by omega) (by omega) (by omega) (by omega),
    pack_score_eq c1 r0 r1 r2 r3 r4 (by omega) (by omega) (by omega) (by omega)]
  have hb1 : q4 &&& 15 < 16 := by
    have := Nat.and_le_right (n := q4) (m := 15)
    omega
  omega

/-- Witness for C7 at a concrete pair of scores: the best high card loses to
the weakest one pair. -/
theorem C7_category_dominates_witness :
    pack_score .HighCard 12 11 10 9 8 < pack_score .OnePair 0 0 0 0 0 :=
  C7_category_dominates .OnePair .HighCard 0 0 0 0 0 12 11 10 9 8
    (by omega) (by omega) (by omega) (by omega) (by omega)
    (by omega) (by omega) (by omega) (by omega) (by omega) (by decide)

/-! ### C1 / C2: the kicker extraction in the one-pair and trips branches -/

/-- C1: the one-pair branch is claimed to fill the three kicker slots with
the three highest remaining ranks in descending order.  On the hand
2c 2d 9c 7c 5c (ids 0, 13, 7, 5, 3: pair of Twos, kickers Nine, Seven,
Five) the code computes kicker slots (7, 7, 7) - the top kicker three times,
because `kmask &= kmask - 1` clears the lowest set bit, not the bit just
extracted - instead of the claimed (7, 5, 3). -/
theorem C1_one_pair_kickers_bug :
    evaluate_u32_from_ids [0, 13, 7, 5, 3] = pack_score .OnePair 0 7 7 7 0 ∧
      pack_score .OnePair 0 7 7 7 0 ≠ pack_score .OnePair 0 7 5 3 0 := by decide

/-- C2: the trips branch is claimed to fill the two kicker slots with the
two highest remaining ranks in descending order.  On the hand
Qc Qd Qh Ks Ac (ids 10, 23, 36, 50, 12: trip Queens, kickers Ace, King)
the code computes kicker slots (12, 12) - the Ace twice - instead of the
claimed (12, 11). -/
theorem C2_trips_kickers_bug :
    evaluate_u32_from_ids [10, 23, 36, 50, 12] = pack_score .Trips 10 12 12 0 0 ∧
      pack_score .Trips 10 12 12 0 0 ≠ pack_score .Trips 10 12 11 0 0 := by decide

/-! ### C10: the bitboard never sets a bit at position 13 or above -/

/-- A bitboard operation, as in the claim: add_card, add_id with id < 52,
remove_card, clear. -/
inductive BBOp where
  | addCard (c : Card)
  | addId (id : Fin 52)
  | removeCard (c : Card)
  | clear

/-- Apply one operation to a bitboard. -/
def BBOp.apply (b : BitBoard4x13) : BBOp → BitBoard4x13
  | .addCard c => (b.add_card c).2
  | .addId id => (b.add_id id).2
  | .removeCard c => b.remove_card c
  | .clear => b.clear

/-- The claimed invariant: all four suit words are within the low 13 bits. -/
def WF (b : BitBoard4x13) : Prop :=
  b.s0 < 8192 ∧ b.s1 < 8192 ∧ b.s2 < 8192 ∧ b.s3 < 8192

theorem masked_lt (v : Nat) : v &&& MASK13 < 8192 := by
  have h := Nat.and_le_right (n := v) (m := MASK13)
  have hm : MASK13 = 8191 := rfl
  omega

theorem setSuit_WF (b : BitBoard4x13) (i v : Nat) (hb : WF b) (hv : v < 8192) :
    WF (b.setSuit i v) := by
  obtain ⟨w0, w1, w2, w3⟩ := hb
  unfold BitBoard4x13.setSuit
  split_ifs <;> exact ⟨by simp_all, by simp_all, by simp_all, by simp_all⟩

theorem apply_WF (b : BitBoard4x13) (op : BBOp) (hb : WF b) : WF (BBOp.apply b op) := by
  cases op with
  | addCard c => exact setSuit_WF b _ _ hb (masked_lt _)
  | addId id => exact setSuit_WF b _ _ hb (masked_lt _)
  | removeCard c => exact setSuit_WF b _ _ hb (masked_lt _)
  | clear =>
    show WF ⟨0, 0, 0, 0⟩
    exact ⟨by decide, by decide, by decide, by decide⟩

theorem foldl_WF (ops : List BBOp) : ∀ b : BitBoard4x13, WF b →
    WF (ops.foldl BBOp.apply b) := by
  induction ops with
  | nil => intro b hb; exact hb
  | cons op ops ih =>
    intro b hb
    exact ih (BBOp.apply b op) (apply_WF b op hb)

/-- C10: starting from the empty board, any sequence of add_card, add_id
(id < 52), remove_card and clear keeps all four suit words within the low
13 bits, and every query output (suit_mask, ranks_any, ge2, ge3, ge4) of the
resulting board is within the low 13 bits. -/
theorem C10_bitboard_low13_invariant (ops : List BBOp) :
    WF (ops.foldl BBOp.apply BitBoard4x13.new) ∧
      (∀ i : Fin 4, (ops.foldl BBOp.apply BitBoard4x13.new).suit_mask i < 8192) ∧
      (ops.foldl BBOp.apply BitBoard4x13.new).ranks_any < 8192 ∧
      (ops.foldl BBOp.apply BitBoard4x13.new).ge2 < 8192 ∧
      (ops.foldl BBOp.apply BitBoard4x13.new).ge3 < 8192 ∧
      (ops.foldl BBOp.apply BitBoard4x13.new).ge4 < 8192 := by
  refine ⟨foldl_WF ops BitBoard4x13.new ⟨by decide, by decide, by decide, by decide⟩,
    fun i => masked_lt _, masked_lt _, masked_lt _, masked_lt _, masked_lt _⟩

/-! ### C6: counting multiplicities on a bitboard -/

/-- Number of suits holding rank r: the rank's multiplicity on the board. -/
def mult (b : BitBoard4x13) (r : Nat) : Nat :=
  bitv b.s0 r + bitv b.s1 r + bitv b.s2 r + bitv b.s3 r

/-- Total number of cards on the board: the sum of the suit popcounts. -/
def card_count (b : BitBoard4x13) : Nat :=
  popcnt13 b.s0 + popcnt13 b.s1 + popcnt13 b.s2 + popcnt13 b.s3

theorem testBit_MASK13 (i : Nat) : MASK13.testBit i = decide (i < 13) := by
  have h : MASK13 = 2 ^ 13 - 1 := by norm_num [MASK13]
  rw [h, Nat.testBit_two_pow_sub_one]

theorem testBit_masked (x q : Nat) (hq : q < 13) : (x &&& MASK13).testBit q = x.testBit q := by
  rw [Nat.testBit_and, testBit_MASK13, decide_eq_true hq, Bool.and_true]

theorem popcnt13_mask (x : Nat) : popcnt13 (x &&& MASK13) = popcnt13 x := by
  rw [popcnt13, popcnt13, Nat.and_assoc, Nat.and_self]

theorem bitv_masked (x q : Nat) (hq : q < 13) : bitv (x &&& MASK13) q = bitv x q := by
  rw [bitv, bitv, testBit_masked x q hq]

theorem popcnt13_sum (x : Nat) : popcnt13 x = ∑ i ∈ Finset.range 13, bitv x i := by
  rw [← popcnt13_mask x, popcnt13_spec (x &&& MASK13) (masked_lt x)]
  exact Finset.sum_congr rfl (fun i hi => bitv_masked x i (Finset.mem_range.mp hi))

theorem card_count_eq_sum_mult (b : BitBoard4x13) :
    card_count b = ∑ r ∈ Finset.range 13, mult b r := by
  rw [card_count, popcnt13_sum b.s0, popcnt13_sum b.s1, popcnt13_sum b.s2, popcnt13_sum b.s3,
    ← Finset.sum_add_distrib, ← Finset.sum_add_distrib, ← Finset.sum_add_distrib]
  exact Finset.sum_congr rfl (fun r _ => rfl)

/-- The five wheel ranks: Two, Three, Four, Five, Ace. -/
def wheelW : Finset Nat := {0, 1, 2, 3, 12}

theorem sum_lb1 (μ : Nat → Nat) (hW : ∀ w ∈ wheelW, 1 ≤ μ w) (t : Nat) (ht : t < 13) :
    μ t + 4 ≤ ∑ r ∈ Finset.range 13, μ r := by
  classical
  have hsub : insert t (wheelW.erase t) ⊆ Finset.range 13 := by
    intro x hx
    rcases Finset.mem_insert.mp hx with h | h
    · subst h; exact Finset.mem_range.mpr ht
    · have hxW : x ∈ wheelW := Finset.mem_of_mem_erase h
      have : x < 13 := by fin_cases hxW <;> omega
      exact Finset.mem_range.mpr this
  have htni : t ∉ wheelW.erase t := Finset.not_mem_erase t wheelW
  have hcard : 4 ≤ (wheelW.erase t).card := by
    have h5 : wheelW.card = 5 := by decide
    have := Finset.pred_card_le_card_erase (s := wheelW) (a := t)
    omega
  have hsumW1 : (wheelW.erase t).card ≤ ∑ w ∈ wheelW.erase t, μ w := by
    have h := Finset.card_nsmul_le_sum (wheelW.erase t) μ 1
      (fun w hw => hW w (Finset.mem_of_mem_erase hw))
    simpa using h
  have hins : ∑ w ∈ insert t (wheelW.erase t), μ w = μ t + ∑ w ∈ wheelW.erase t, μ w :=
    Finset.sum_insert htni
  have hle : ∑ w ∈ insert t (wheelW.erase t), μ w ≤ ∑ r ∈ Finset.range 13, μ r :=
    Finset.sum_le_sum_of_subset hsub
  omega

theorem sum_lb2 (μ : Nat → Nat) (hW : ∀ w ∈ wheelW, 1 ≤ μ w) (t q : Nat)
    (ht : t < 13) (hq : q < 13) (hne : t ≠ q) :
    μ t + μ q + 3 ≤ ∑ r ∈ Finset.range 13, μ r := by
  classical
  have hsub : insert t (insert q ((wheelW.erase t).erase q)) ⊆ Finset.range 13 := by
    intro x hx
    rcases Finset.mem_insert.mp hx with h | h
    · subst h; exact Finset.mem_range.mpr ht
    rcases Finset.mem_insert.mp h with h | h
    · subst h; exact Finset.mem_range.mpr hq
    · have hxW : x ∈ wheelW := Finset.mem_of_mem_erase (Finset.mem_of_mem_erase h)
      have : x < 13 := by fin_cases hxW <;> omega
      exact Finset.mem_range.mpr this
  have hqni : q ∉ (wheelW.erase t).erase q := Finset.not_mem_erase q _
  have htni : t ∉ insert q ((wheelW.erase t).erase q) := by
    intro hmem
    rcases Finset.mem_insert.mp hmem with h | h
    · exact hne h
    · exact Finset.not_mem_erase t wheelW (Finset.mem_of_mem_erase h)
  have hcard : 3 ≤ ((wheelW.erase t).erase q).card := by
    have h5 : wheelW.card = 5 := by decide
    have h1 := Finset.pred_card_le_card_erase (s := wheelW) (a := t)
    have h2 := Finset.pred_card_le_card_erase (s := wheelW.erase t) (a := q)
    omega
  have hsumW2 : ((wheelW.erase t).erase q).card ≤ ∑ w ∈ (wheelW.erase t).erase q, μ w := by
    have h := Finset.card_nsmul_le_sum ((wheelW.erase t).erase q) μ 1
      (fun w hw => hW w (Finset.mem_of_mem_erase (Finset.mem_of_mem_erase hw)))
    simpa using h
  have hins : ∑ w ∈ insert t (insert q ((wheelW.erase t).erase q)), μ w =
      μ t + (μ q + ∑ w ∈ (wheelW.erase t).erase q, μ w) := by
    rw [Finset.sum_insert htni, Finset.sum_insert hqni]
  have hle : ∑ w ∈ insert t (insert q ((wheelW.erase t).erase q)), μ w ≤
      ∑ r ∈ Finset.range 13, μ r :=
    Finset.sum_le_sum_of_subset hsub
  omega

theorem sf_update_skip (x : Nat) (hx : popcnt13 x ≤ 4) (acc : Int) : sf_update acc x = acc := by
  rw [sf_update, if_neg (by omega)]

/-- The union expression computed inside the evaluator equals the board's
ranks_any mask. -/
theorem ranks_expr_eq (b : BitBoard4x13) :
    ((b.s0 &&& MASK13 ||| b.s1 &&& MASK13 ||| b.s2 &&& MASK13 ||| b.s3 &&& MASK13) &&& MASK13) =
      b.ranks_any := by
  rw [← Nat.and_distrib_right, ← Nat.and_distrib_right, ← Nat.and_distrib_right,
    Nat.and_assoc, Nat.and_self]
  rfl

theorem mult_ge1_of_ranks_bit (b : BitBoard4x13) (w : Nat) (hw : w < 13)
    (h : b.ranks_any.testBit w = true) : 1 ≤ mult b w := by
  rw [BitBoard4x13.ranks_any, testBit_masked _ w hw] at h
  simp only [Nat.testBit_or] at h
  simp only [mult, bitv]
  revert h
  cases b.s0.testBit w <;> cases b.s1.testBit w <;> cases b.s2.testBit w <;>
    cases b.s3.testBit w <;> decide

theorem mult_ge2_of_ge2_bit (b : BitBoard4x13) (q : Nat) (hq : q < 13)
    (h : b.ge2.testBit q = true) : 2 ≤ mult b q := by
  rw [BitBoard4x13.ge2, testBit_masked _ q hq] at h
  simp only [Nat.testBit_or, Nat.testBit_and] at h
  simp only [mult, bitv]
  revert h
  cases b.s0.testBit q <;> cases b.s1.testBit q <;> cases b.s2.testBit q <;>
    cases b.s3.testBit q <;> decide

theorem mult_ge3_of_ge3_bit (b : BitBoard4x13) (q : Nat) (hq : q < 13)
    (h : b.ge3.testBit q = true) : 3 ≤ mult b q := by
  rw [BitBoard4x13.ge3, testBit_masked _ q hq] at h
  simp only [Nat.testBit_or, Nat.testBit_and] at h
  simp only [mult, bitv]
  revert h
  cases b.s0.testBit q <;> cases b.s1.testBit q <;> cases b.s2.testBit q <;>
    cases b.s3.testBit q <;> decide

theorem mult_ge4_of_ge4_bit (b : BitBoard4x13) (q : Nat) (hq : q < 13)
    (h : b.ge4.testBit q = true) : 4 ≤ mult b q := by
  rw [BitBoard4x13.ge4, testBit_masked _ q hq] at h
  simp only [Nat.testBit_and] at h
  simp only [mult, bitv]
  revert h
  cases b.s0.testBit q <;> cases b.s1.testBit q <;> cases b.s2.testBit q <;>
    cases b.s3.testBit q <;> decide

/-- The ge4 expression computed inside the evaluator equals the board's ge4. -/
theorem g4_expr_eq (b : BitBoard4x13) :
    ((b.s0 &&& MASK13) &&& (b.s1 &&& MASK13) &&& (b.s2 &&& MASK13) &&& (b.s3 &&& MASK13)) &&&
      MASK13 = b.ge4 := by
  apply Nat.eq_of_testBit_eq
  intro i
  rw [BitBoard4x13.ge4]
  simp only [Nat.testBit_and]
  cases b.s0.testBit i <;> cases b.s1.testBit i <;> cases b.s2.testBit i <;>
    cases b.s3.testBit i <;> cases MASK13.testBit i <;> rfl

/-- The ge2 expression computed inside the evaluator equals the board's ge2. -/
theorem g2_expr_eq (b : BitBoard4x13) :
    (((b.s0 &&& MASK13) &&& (b.s1 &&& MASK13)) ||| ((b.s0 &&& MASK13) &&& (b.s2 &&& MASK13)) |||
     ((b.s0 &&& MASK13) &&& (b.s3 &&& MASK13)) ||| ((b.s1 &&& MASK13) &&& (b.s2 &&& MASK13)) |||
     ((b.s1 &&& MASK13) &&& (b.s3 &&& MASK13)) ||| ((b.s2 &&& MASK13) &&& (b.s3 &&& MASK13))) &&&
      MASK13 = b.ge2 := by
  apply Nat.eq_of_testBit_eq
  intro i
  rw [BitBoard4x13.ge2]
  simp only [Nat.testBit_and, Nat.testBit_or]
  cases b.s0.testBit i <;> cases b.s1.testBit i <;> cases b.s2.testBit i <;>
    cases b.s3.testBit i <;> cases MASK13.testBit i <;> rfl

/-- The ge3 expression computed inside the evaluator equals the board's ge3. -/
theorem g3_expr_eq (b : BitBoard4x13) :
    (((b.s0 &&& MASK13) &&& (b.s1 &&& MASK13) &&& (b.s2 &&& MASK13)) |||
     ((b.s0 &&& MASK13) &&& (b.s1 &&& MASK13) &&& (b.s3 &&& MASK13)) |||
     ((b.s0 &&& MASK13) &&& (b.s2 &&& MASK13) &&& (b.s3 &&& MASK13)) |||
     ((b.s1 &&& MASK13) &&& (b.s2 &&& MASK13) &&& (b.s3 &&& MASK13))) &&&
      MASK13 = b.ge3 := by
  apply Nat.eq_of_testBit_eq
  intro i
  rw [BitBoard4x13.ge3]
  simp only [Nat.testBit_and, Nat.testBit_or]
  cases b.s0.testBit i <;> cases b.s1.testBit i <;> cases b.s2.testBit i <;>
    cases b.s3.testBit i <;> cases MASK13.testBit i <;> rfl

theorem hibit13_spec_of_nonneg (m : Nat) (hm : m < 8192) (h : 0 ≤ hibit13 m) :
    ∃ j : Nat, j < 13 ∧ i8_as_u8 (hibit13 m) = j ∧ m.testBit j = true := by
  have hne : m ≠ 0 := by
    intro h0
    subst h0
    exact absurd h (by decide)
  obtain ⟨j, hj, _, hu8, hbit⟩ := hibit13_spec m hm hne
  exact ⟨j, hj, hu8, hbit⟩

theorem ne_of_testBit_not16_bit16 (t q : Nat) (ht : t < 16)
    (h : (not16 (bit16 t)).testBit q = true) : q ≠ t := by
  intro he
  subst he
  rw [not16, bit16, Nat.mod_eq_of_lt ht, Nat.testBit_xor, Nat.one_shiftLeft,
    Nat.testBit_two_pow_self] at h
  have h65535 : (65535 : Nat).testBit q = true := by
    have he : (65535 : Nat) = 2 ^ 16 - 1 := by norm_num
    rw [he, Nat.testBit_two_pow_sub_one, decide_eq_true ht]
  rw [h65535] at h
  exact absurd h (by decide)

/-- C6: every 5-7 card bitboard that contains the wheel ranks (Ace, Two,
Three, Four, Five) in its union mask, with no higher straight window in the
union mask and no suit holding five or more cards, evaluates to category
Straight with end-rank index 3, and that Score is strictly less than the
Score of a Six-high straight (end-rank index 4). -/
theorem C6_wheel_straight (b : BitBoard4x13)
    (hc5 : 5 ≤ card_count b) (hc7 : card_count b ≤ 7)
    (hwheel : b.ranks_any &&& WHEEL_MASK = WHEEL_MASK)
    (hnostr : ∀ s, s < 9 → b.ranks_any &&& (31 <<< s) ≠ 31 <<< s)
    (hf0 : popcnt13 b.s0 ≤ 4) (hf1 : popcnt13 b.s1 ≤ 4)
    (hf2 : popcnt13 b.s2 ≤ 4) (hf3 : popcnt13 b.s3 ≤ 4) :
    evaluate_u32 b = pack_score .Straight 3 0 0 0 0 ∧
      pack_score .Straight 3 0 0 0 0 < pack_score .Straight 4 0 0 0 0 := by
  refine ⟨?_, by decide⟩
  have hW : ∀ w ∈ wheelW, 1 ≤ mult b w := by
    intro w hw
    have hwlt : w < 13 := by fin_cases hw <;> omega
    have hwbit : WHEEL_MASK.testBit w = true := by fin_cases hw <;> decide
    have h := congrArg (fun x => Nat.testBit x w) hwheel
    simp only at h
    rw [Nat.testBit_and, hwbit, Bool.and_true] at h
    exact mult_ge1_of_ranks_bit b w hwlt h
  have K1 : ∀ t, t < 13 → 4 ≤ mult b t → False := by
    intro t ht h4
    have hs := sum_lb1 (mult b) hW t ht
    rw [← card_count_eq_sum_mult] at hs
    omega
  have K2 : ∀ t q, t < 13 → q < 13 → t ≠ q → 3 ≤ mult b t → 2 ≤ mult b q → False := by
    intro t q ht hq hne h3 h2
    have hs := sum_lb2 (mult b) hW t q ht hq hne
    rw [← card_count_eq_sum_mult] at hs
    omega
  have hpm0 : popcnt13 (b.s0 &&& MASK13) ≤ 4 := by rwa [popcnt13_mask]
  have hpm1 : popcnt13 (b.s1 &&& MASK13) ≤ 4 := by rwa [popcnt13_mask]
  have hpm2 : popcnt13 (b.s2 &&& MASK13) ≤ 4 := by rwa [popcnt13_mask]
  have hpm3 : popcnt13 (b.s3 &&& MASK13) ≤ 4 := by rwa [popcnt13_mask]
  have hge2lt : b.ge2 < 8192 := by rw [BitBoard4x13.ge2]; exact masked_lt _
  have hge3lt : b.ge3 < 8192 := by rw [BitBoard4x13.ge3]; exact masked_lt _
  have hG4 : b.ge4 = 0 := by
    apply Nat.eq_of_testBit_eq
    intro i
    rw [Nat.zero_testBit]
    by_cases hi : i < 13
    · by_contra hcon
      rw [Bool.not_eq_false] at hcon
      exact K1 i hi (mult_ge4_of_ge4_bit b i hi hcon)
    · rw [BitBoard4x13.ge4, Nat.testBit_and, testBit_MASK13, decide_eq_false hi, Bool.and_false]
  have hse : straight_end13 b.ranks_any = 3 := by
    refine straight_end13_wheel b.ranks_any ?_ hwheel hnostr
    rw [BitBoard4x13.ranks_any]
    exact masked_lt _
  have hrest : ∀ g2v g3v g4v : Nat,
      evaluate_rest (b.s0 &&& MASK13) (b.s1 &&& MASK13) (b.s2 &&& MASK13) (b.s3 &&& MASK13)
        b.ranks_any g2v g3v g4v = pack_score .Straight 3 0 0 0 0 := by
    intro g2v g3v g4v
    simp only [evaluate_rest]
    rw [if_neg (show ¬ 5 ≤ popcnt13 (b.s0 &&& MASK13) by omega),
      if_neg (show ¬ 5 ≤ popcnt13 (b.s1 &&& MASK13) by omega),
      if_neg (show ¬ 5 ≤ popcnt13 (b.s2 &&& MASK13) by omega),
      if_neg (show ¬ 5 ≤ popcnt13 (b.s3 &&& MASK13) by omega),
      if_neg (show ¬ (0 : Nat) ≠ 0 from fun h => h rfl), hse,
      if_pos (show (0 : Int) ≤ 3 by decide),
      show i8_as_u8 3 = 3 from by decide]
  simp only [evaluate_u32]
  rw [g4_expr_eq, g3_expr_eq, g2_expr_eq, ranks_expr_eq]
  rw [sf_update_skip _ hpm3, sf_update_skip _ hpm2, sf_update_skip _ hpm1,
    sf_update_skip _ hpm0]
  rw [if_neg (show ¬ (0 : Int) ≤ -1 by decide)]
  rw [if_neg (not_not_intro hG4)]
  rw [hrest]
  have hexlt : b.ge3 &&& not16 b.ge4 < 8192 := lt_of_le_of_lt Nat.and_le_left hge3lt
  split_ifs with hex hpr htr2
  · exfalso
    obtain ⟨t, ht13, _, htu8, htbit⟩ := hibit13_spec _ hexlt hex
    have hmt : 3 ≤ mult b t := by
      rw [Nat.testBit_and] at htbit
      exact mult_ge3_of_ge3_bit b t ht13 (Bool.and_eq_true_iff.mp htbit).1
    rw [htu8] at hpr
    have hplt : (b.ge2 &&& not16 b.ge3) &&& not16 (bit16 t) < 8192 :=
      lt_of_le_of_lt (le_trans Nat.and_le_left Nat.and_le_left) hge2lt
    obtain ⟨q, hq13, _, hqbit⟩ := hibit13_spec_of_nonneg _ hplt hpr
    rw [Nat.testBit_and] at hqbit
    obtain ⟨hq1, hq2⟩ := Bool.and_eq_true_iff.mp hqbit
    have hqt : q ≠ t := ne_of_testBit_not16_bit16 t q (by omega) hq2
    have hmq : 2 ≤ mult b q := by
      rw [Nat.testBit_and] at hq1
      exact mult_ge2_of_ge2_bit b q hq13 (Bool.and_eq_true_iff.mp hq1).1
    exact K2 t q ht13 hq13 (Ne.symm hqt) hmt hmq
  · exfalso
    obtain ⟨t, ht13, _, htu8, htbit⟩ := hibit13_spec _ hexlt hex
    have hmt : 3 ≤ mult b t := by
      rw [Nat.testBit_and] at htbit
      exact mult_ge3_of_ge3_bit b t ht13 (Bool.and_eq_true_iff.mp htbit).1
    rw [htu8] at htr2
    have htlt : (b.ge3 &&& not16 b.ge4) &&& not16 (bit16 t) < 8192 :=
      lt_of_le_of_lt Nat.and_le_left hexlt
    obtain ⟨q, hq13, _, hqbit⟩ := hibit13_spec_of_nonneg _ htlt htr2
    rw [Nat.testBit_and] at hqbit
    obtain ⟨hq1, hq2⟩ := Bool.and_eq_true_iff.mp hqbit
    have hqt : q ≠ t := ne_of_testBit_not16_bit16 t q (by omega) hq2
    have hmq : 3 ≤ mult b q := by
      rw [Nat.testBit_and] at hq1
      exact mult_ge3_of_ge3_bit b q hq13 (Bool.and_eq_true_iff.mp hq1).1
    exact K2 t q ht13 hq13 (Ne.symm hqt) hmt (by omega)
  · rfl
  · rfl

/-- Witness for C6: the five-card wheel A of clubs, 2 of diamonds,
3 of hearts, 4 of spades, 5 of clubs (suit masks 4104, 1, 2, 4). -/
theorem C6_wheel_straight_witness :
    evaluate_u32 ⟨4104, 1, 2, 4⟩ = pack_score .Straight 3 0 0 0 0 ∧
      pack_score .Straight 3 0 0 0 0 < pack_score .Straight 4 0 0 0 0 :=
  C6_wheel_straight ⟨4104, 1, 2, 4⟩ (by decide) (by decide) (by decide)
    (by decide) (by decide) (by decide) (by decide) (by decide)

/-! ### equity.rs: outcome, counters, errors, validation -/

/-- equity.rs Outcome. -/
inductive Outcome where
  | HeroWin
  | Tie
  | VillainWin
  deriving DecidableEq

/-- equity.rs EquityCounts (win / tie / lose counters). -/
structure EquityCounts where
  win : Nat
  tie : Nat
  lose : Nat
  deriving DecidableEq

/-- equity.rs EquityCounts::total. -/
def EquityCounts.total (c : EquityCounts) : Nat := c.win + c.tie + c.lose

/-- equity.rs EquityError. -/
inductive EquityError where
  | TooManyBoardCards (n : Nat)
  | DuplicateCard (id : Nat)
  | CardOutOfRange (id : Nat)
  | TooFewPlayers
  | TooManyPlayers
  deriving DecidableEq

/-- equity.rs card_bit: range-check a card id and return its 52-bit mask bit. -/
def card_bit (id : Nat) : Except EquityError Nat :=
  if 52 ≤ id then .error (.CardOutOfRange id) else .ok (1 <<< id)

/-- equity.rs add_used: duplicate-check a card id against the occupancy set
and mark it used (the Rust code mutates `used`; here the new set is
returned). -/
def add_used (used : Nat) (id : Nat) : Except EquityError Nat :=
  match card_bit id with
  | .error e => .error e
  | .ok bit =>
    if used &&& bit ≠ 0 then .error (.DuplicateCard id)
    else .ok (used ||| bit)

instance {α : Type} [DecidableEq α] : DecidableEq (Except EquityError α) := fun a b =>
  match a, b with
  | .error e1, .error e2 =>
    if h : e1 = e2 then isTrue (by rw [h]) else isFalse (by intro hc; cases hc; exact h rfl)
  | .ok v1, .ok v2 =>
    if h : v1 = v2 then isTrue (by rw [h]) else isFalse (by intro hc; cases hc; exact h rfl)
  | .error _, .ok _ => isFalse (by intro hc; cases hc)
  | .ok _, .error _ => isFalse (by intro hc; cases hc)

/-- equity.rs validate_inputs: the board-length check runs first, then hero
cards, then villain cards, then board cards, accumulating the occupancy
set. -/
def validate_inputs (hero : Nat × Nat) (villain : Option (Nat × Nat)) (board : List Nat) :
    Except EquityError Nat :=
  if 5 < board.length then .error (.TooManyBoardCards board.length)
  else
    match add_used 0 hero.1 with
    | .error e => .error e
    | .ok u1 =>
      match add_used u1 hero.2 with
      | .error e => .error e
      | .ok u2 =>
        match (match villain with
          | none => Except.ok u2
          | some v =>
            match add_used u2 v.1 with
            | .error e => .error e
            | .ok u3 => add_used u3 v.2) with
        | .error e => .error e
        | .ok u4 => board.foldlM add_used u4

/-- equity.rs fill_remaining_cards: the ids 0..51 not in the occupancy set,
in increasing order. -/
def fill_remaining_cards (used : Nat) : List Nat :=
  (List.range 52).filter (fun id => used &&& (1 <<< id) == 0)

/-- The order in which validate_inputs visits the villain's cards: both
cards when a villain hand is present, none otherwise. -/
def villain_cards : Option (Nat × Nat) → List Nat
  | none => []
  | some v => [v.1, v.2]

/-- The occupancy mask of a list of card ids. -/
def cards_mask : List Nat → Nat
  | [] => 0
  | x :: xs => (1 <<< x) ||| cards_mask xs

/-- equity.rs bump_counts. -/
def bump_counts (counts : EquityCounts) (out : Outcome) : EquityCounts :=
  match out with
  | .HeroWin => { counts with win := counts.win + 1 }
  | .Tie => { counts with tie := counts.tie + 1 }
  | .VillainWin => { counts with lose := counts.lose + 1 }

/-- equity.rs eval_two_players_unchecked: build the board bitboard once, add
each player's hole cards on a copy, evaluate and compare. -/
def eval_two_players_unchecked (hero villain : Nat × Nat) (board5 : List Nat) : Outcome :=
  let bb_board := board5.foldl (fun b c => (b.add_id c).2) BitBoard4x13.new
  let h := ((bb_board.add_id hero.1).2.add_id hero.2).2
  let v := ((bb_board.add_id villain.1).2.add_id villain.2).2
  let hs := evaluate_u32 h
  let vs := evaluate_u32 v
  if vs < hs then Outcome.HeroWin
  else if hs < vs then Outcome.VillainWin
  else Outcome.Tie

/-- equity.rs compare_showdown_unchecked. -/
def compare_showdown_unchecked (hero villain : Nat × Nat) (board : List Nat) : Outcome :=
  eval_two_players_unchecked hero villain board

/-- equity.rs compare_showdown_checked. -/
def compare_showdown_checked (hero villain : Nat × Nat) (board : List Nat) :
    Except EquityError Outcome :=
  match validate_inputs hero (some villain) board with
  | .error e => .error e
  | .ok _ => .ok (eval_two_players_unchecked hero villain board)

/-! ### equity.rs: the fast sampler (xorshift64 + rejection sampling).
The two Rust `loop`s are unbounded; the model bounds them with a fuel
parameter, `none` meaning the loop has not accepted within the bound. -/

/-- equity.rs XorShift64::next_u64 state update (u64 arithmetic on Nat,
shifts truncated to 64 bits). -/
def xs_step (s : Nat) : Nat :=
  let x1 := s ^^^ ((s <<< 13) % 2 ^ 64)
  let x2 := x1 ^^^ (x1 >>> 7)
  x2 ^^^ ((x2 <<< 17) % 2 ^ 64)

/-- equity.rs CardSampler52: xorshift state, a pool of unconsumed random
bits, and how many pool bits remain. -/
structure CardSampler52 where
  rng : Nat
  pool : Nat
  bits_left : Nat
  deriving DecidableEq

/-- equity.rs CardSampler52::new: seed the xorshift and pull one u64
(which also advances the generator state). -/
def CardSampler52.new (seed : Nat) : CardSampler52 :=
  { rng := xs_step seed, pool := xs_step seed, bits_left := 64 }

/-- equity.rs next_u6: refill the pool when fewer than 6 bits remain, then
take the low 6 bits. -/
def CardSampler52.next_u6 (s : CardSampler52) : Nat × CardSampler52 :=
  if s.bits_left < 6 then
    let pool := xs_step s.rng
    (pool &&& 63, { rng := xs_step s.rng, pool := pool >>> 6, bits_left := 64 - 6 })
  else
    (s.pool &&& 63, { rng := s.rng, pool := s.pool >>> 6, bits_left := s.bits_left - 6 })

/-- equity.rs next_card_id: draw 6-bit chunks until one is below 52. -/
def next_card_id : Nat → CardSampler52 → Option (Nat × CardSampler52)
  | 0, _ => none
  | fuel + 1, s =>
    let p := s.next_u6
    if p.1 < 52 then some (p.1, p.2) else next_card_id fuel p.2

/-- One slot of equity.rs sample_distinct_cards: draw card ids until one is
outside the occupancy set, then mark it used. -/
def sample_unused : Nat → CardSampler52 → Nat → Option (Nat × CardSampler52 × Nat)
  | 0, _, _ => none
  | fuel + 1, s, used =>
    match next_card_id (fuel + 1) s with
    | none => none
    | some (id, s1) =>
      if used &&& (1 <<< id) = 0 then some (id, s1, used ||| (1 <<< id))
      else sample_unused fuel s1 used

/-- equity.rs sample_distinct_cards: fill k slots with distinct unused ids,
returning the drawn ids in order together with the advanced sampler and
occupancy set. -/
def sample_distinct_cards (fuel : Nat) : Nat → CardSampler52 → Nat →
    Option (List Nat × CardSampler52 × Nat)
  | 0, s, used => some ([], s, used)
  | k + 1, s, used =>
    match sample_unused fuel s used with
    | none => none
    | some (id, s1, used1) =>
      match sample_distinct_cards fuel k s1 used1 with
      | none => none
      | some (ids, s2, used2) => some (id :: ids, s2, used2)

/-! ### equity.rs: Monte Carlo entry points -/

/-- Per-iteration loop of equity.rs equity_mc_vs_hand_checked: reset the
occupancy set to the validated inputs, sample the missing board cards,
classify the showdown and accumulate. -/
def mc_vs_hand_loop (hero villain : Nat × Nat) (board : List Nat) (missing : Nat)
    (used0 : Nat) (fuel : Nat) :
    Nat → CardSampler52 → EquityCounts → Option EquityCounts
  | 0, _, counts => some counts
  | iters + 1, s, counts =>
    match sample_distinct_cards fuel missing s used0 with
    | none => none
    | some (fill, s1, _) =>
      mc_vs_hand_loop hero villain board missing used0 fuel iters s1
        (bump_counts counts (eval_two_players_unchecked hero villain (board ++ fill)))

/-- equity.rs equity_mc_vs_hand_checked. -/
def equity_mc_vs_hand_checked (hero villain : Nat × Nat) (board : List Nat)
    (iters seed : Nat) (fuel : Nat) : Except EquityError (Option EquityCounts) :=
  match validate_inputs hero (some villain) board with
  | .error e => .error e
  | .ok used0 =>
    .ok (mc_vs_hand_loop hero villain board (5 - board.length) used0 fuel iters
      (CardSampler52.new seed) ⟨0, 0, 0⟩)

/-- Per-iteration loop of equity.rs equity_mc_vs_random_checked: sample the
villain hole cards first, then the board runout. -/
def mc_vs_random_loop (hero : Nat × Nat) (board : List Nat) (missing : Nat)
    (used0 : Nat) (fuel : Nat) :
    Nat → CardSampler52 → EquityCounts → Option EquityCounts
  | 0, _, counts => some counts
  | iters + 1, s, counts =>
    match sample_distinct_cards fuel 2 s used0 with
    | none => none
    | some (vill, s1, used1) =>
      match sample_distinct_cards fuel missing s1 used1 with
      | none => none
      | some (fill, s2, _) =>
        mc_vs_random_loop hero board missing used0 fuel iters s2
          (bump_counts counts
            (eval_two_players_unchecked hero (vill.getD 0 0, vill.getD 1 0) (board ++ fill)))

/-- equity.rs equity_mc_vs_random_checked. -/
def equity_mc_vs_random_checked (hero : Nat × Nat) (board : List Nat)
    (iters seed : Nat) (fuel : Nat) : Except EquityError (Option EquityCounts) :=
  match validate_inputs hero none board with
  | .error e => .error e
  | .ok used0 =>
    .ok (mc_vs_random_loop hero board (5 - board.length) used0 fuel iters
      (CardSampler52.new seed) ⟨0, 0, 0⟩)

/-! ### equity.rs: multi-way equity -/

/-- equity.rs find_winners: indices of all players whose score equals the
maximum (the Rust `iter().max()` of a nonempty u32 slice is its fold with
max from 0). -/
def find_winners (scores : List Nat) : List Nat :=
  if scores.isEmpty then []
  else
    let best := scores.foldl Nat.max 0
    (scores.enum.filter (fun p => p.2 == best)).map (fun p => p.1)

/-- The per-trial result update of the multiway loops: the sole winner's
win counter (or every co-winner's tie counter) is bumped and every other
player's lose counter is bumped.  `i ∈ winners` expresses the Rust
`winners[0] == i` (singleton case) and `winners.contains(&i)`. -/
def bump_multiway (winners : List Nat) (results : List EquityCounts) : List EquityCounts :=
  if winners.length == 1 then
    results.enum.map (fun p =>
      if p.1 ∈ winners then { p.2 with win := p.2.win + 1 }
      else { p.2 with lose := p.2.lose + 1 })
  else
    results.enum.map (fun p =>
      if p.1 ∈ winners then { p.2 with tie := p.2.tie + 1 }
      else { p.2 with lose := p.2.lose + 1 })

/-- Evaluate every player's hand against the shared board bitboard. -/
def multiway_scores (hands : List (Nat × Nat)) (bb_board : BitBoard4x13) : List Nat :=
  hands.map (fun hd => evaluate_u32 (((bb_board.add_id hd.1).2.add_id hd.2).2))

/-- The duplicate validation of the multiway entry points: all players'
hole cards, then the board. -/
def validate_multiway_used (hands : List (Nat × Nat)) (board : List Nat) :
    Except EquityError Nat :=
  match hands.foldlM (fun u hd =>
      (match add_used u hd.1 with
        | .error e => .error e
        | .ok u1 => add_used u1 hd.2 : Except EquityError Nat)) 0 with
  | .error e => .error e
  | .ok u => board.foldlM add_used u

/-- Per-iteration loop of equity.rs equity_mc_multiway_checked. -/
def mc_multiway_loop (hands : List (Nat × Nat)) (board : List Nat) (missing : Nat)
    (used0 : Nat) (fuel : Nat) :
    Nat → CardSampler52 → List EquityCounts → Option (List EquityCounts)
  | 0, _, results => some results
  | iters + 1, s, results =>
    match sample_distinct_cards fuel missing s used0 with
    | none => none
    | some (fill, s1, _) =>
      let bb_board := (board ++ fill).foldl (fun b c => (b.add_id c).2) BitBoard4x13.new
      mc_multiway_loop hands board missing used0 fuel iters s1
        (bump_multiway (find_winners (multiway_scores hands bb_board)) results)

/-- equity.rs equity_mc_multiway_checked. -/
def equity_mc_multiway_checked (hands : List (Nat × Nat)) (board : List Nat)
    (iters seed : Nat) (fuel : Nat) : Except EquityError (Option (List EquityCounts)) :=
  if hands.length < 2 then .error .TooFewPlayers
  else if 9 < hands.length then .error .TooManyPlayers
  else if 5 < board.length then .error (.TooManyBoardCards board.length)
  else
    match validate_multiway_used hands board with
    | .error e => .error e
    | .ok used =>
      .ok (mc_multiway_loop hands board (5 - board.length) used fuel iters
        (CardSampler52.new seed) (List.replicate hands.length ⟨0, 0, 0⟩))

/-- equity.rs equity_mc_vs_random_multiway_checked, hero counter update:
win when the sole winner is player 0, tie when player 0 is among several
co-winners, lose otherwise. -/
def bump_hero (winners : List Nat) (counts : EquityCounts) : EquityCounts :=
  if winners.length == 1 then
    if winners.getD 0 0 == 0 then { counts with win := counts.win + 1 }
    else { counts with lose := counts.lose + 1 }
  else
    if 0 ∈ winners then { counts with tie := counts.tie + 1 }
    else { counts with lose := counts.lose + 1 }

/-- Sampling of the (two-card) hands of n random villains. -/
def sample_villains (fuel : Nat) : Nat → CardSampler52 → Nat →
    Option (List (Nat × Nat) × CardSampler52 × Nat)
  | 0, s, used => some ([], s, used)
  | n + 1, s, used =>
    match sample_distinct_cards fuel 2 s used with
    | none => none
    | some (v, s1, used1) =>
      match sample_villains fuel n s1 used1 with
      | none => none
      | some (vs, s2, used2) => some ((v.getD 0 0, v.getD 1 0) :: vs, s2, used2)

/-- Per-iteration loop of equity.rs equity_mc_vs_random_multiway_checked. -/
def mc_vs_random_multiway_loop (hero : Nat × Nat) (num_villains : Nat) (board : List Nat)
    (missing : Nat) (used0 : Nat) (fuel : Nat) :
    Nat → CardSampler52 → EquityCounts → Option EquityCounts
  | 0, _, counts => some counts
  | iters + 1, s, counts =>
    match sample_villains fuel num_villains s used0 with
    | none => none
    | some (villains, s1, used1) =>
      match sample_distinct_cards fuel missing s1 used1 with
      | none => none
      | some (fill, s2, _) =>
        let bb_board := (board ++ fill).foldl (fun b c => (b.add_id c).2) BitBoard4x13.new
        mc_vs_random_multiway_loop hero num_villains board missing used0 fuel iters s2
          (bump_hero (find_winners (multiway_scores (hero :: villains) bb_board)) counts)

/-- equity.rs equity_mc_vs_random_multiway_checked. -/
def equity_mc_vs_random_multiway_checked (hero : Nat × Nat) (num_villains : Nat)
    (board : List Nat) (iters seed : Nat) (fuel : Nat) :
    Except EquityError (Option EquityCounts) :=
  if num_villains < 1 then .error .TooFewPlayers
  else if 8 < num_villains then .error .TooManyPlayers
  else if 5 < board.length then .error (.TooManyBoardCards board.length)
  else
    match (match add_used 0 hero.1 with
      | .error e => .error e
      | .ok u1 =>
        match add_used u1 hero.2 with
        | .error e => .error e
        | .ok u2 => board.foldlM add_used u2 : Except EquityError Nat) with
    | .error e => .error e
    | .ok used0 =>
      .ok (mc_vs_random_multiway_loop hero num_villains board (5 - board.length) used0 fuel
        iters (CardSampler52.new seed) ⟨0, 0, 0⟩)

/-! ### equity.rs: exact enumeration -/

/-- equity.rs enumerate_board_completions: the board completions produced by
the specialized nested ascending-index loops, as a list (the Rust code
passes each completion to a callback; the callers fold over this list). -/
def enumerate_board_completions (rem : List Nat) (known_board : List Nat) (missing : Nat) :
    List (List Nat) :=
  let m := rem.length
  match missing with
  | 0 => [known_board]
  | 1 => (List.range m).map (fun i => known_board ++ [rem.getD i 0])
  | 2 =>
    (List.range (m - 1)).flatMap (fun i =>
      (List.range' (i + 1) (m - (i + 1))).map (fun j =>
        known_board ++ [rem.getD i 0, rem.getD j 0]))
  | 3 =>
    (List.range (m - 2)).flatMap (fun i =>
      (List.range' (i + 1) ((m - 1) - (i + 1))).flatMap (fun j =>
        (List.range' (j + 1) (m - (j + 1))).map (fun k =>
          known_board ++ [rem.getD i 0, rem.getD j 0, rem.getD k 0])))
  | 4 =>
    (List.range (m - 3)).flatMap (fun i =>
      (List.range' (i + 1) ((m - 2) - (i + 1))).flatMap (fun j =>
        (List.range' (j + 1) ((m - 1) - (j + 1))).flatMap (fun k =>
          (List.range' (k + 1) (m - (k + 1))).map (fun l =>
            known_board ++ [rem.getD i 0, rem.getD j 0, rem.getD k 0, rem.getD l 0]))))
  | 5 =>
    (List.range (m - 4)).flatMap (fun i =>
      (List.range' (i + 1) ((m - 3) - (i + 1))).flatMap (fun j =>
        (List.range' (j + 1) ((m - 2) - (j + 1))).flatMap (fun k =>
          (List.range' (k + 1) ((m - 1) - (k + 1))).flatMap (fun l =>
            (List.range' (l + 1) (m - (l + 1))).map (fun p =>
              known_board ++
                [rem.getD i 0, rem.getD j 0, rem.getD k 0, rem.getD l 0, rem.getD p 0])))))
  | _ + 6 => []

/-- equity.rs equity_exact_vs_hand_checked. -/
def equity_exact_vs_hand_checked (hero villain : Nat × Nat) (board : List Nat) :
    Except EquityError EquityCounts :=
  match validate_inputs hero (some villain) board with
  | .error e => .error e
  | .ok used0 =>
    .ok ((enumerate_board_completions (fill_remaining_cards used0) board
        (5 - board.length)).foldl
      (fun counts board5 => bump_counts counts (eval_two_players_unchecked hero villain board5))
      ⟨0, 0, 0⟩)

/-- The per-completion body of equity.rs equity_exact_multiway_checked:
build the board bitboard, evaluate every player, update winners. -/
def exact_multiway_step (hands : List (Nat × Nat)) (results : List EquityCounts)
    (board5 : List Nat) : List EquityCounts :=
  let bb_board := board5.foldl (fun b c => (b.add_id c).2) BitBoard4x13.new
  bump_multiway (find_winners (multiway_scores hands bb_board)) results

/-- equity.rs equity_exact_multiway_checked. -/
def equity_exact_multiway_checked (hands : List (Nat × Nat)) (board : List Nat) :
    Except EquityError (List EquityCounts) :=
  if hands.length < 2 then .error .TooFewPlayers
  else if 9 < hands.length then .error .TooManyPlayers
  else if 5 < board.length then .error (.TooManyBoardCards board.length)
  else
    match validate_multiway_used hands board with
    | .error e => .error e
    | .ok used =>
      .ok ((enumerate_board_completions (fill_remaining_cards used) board
          (5 - board.length)).foldl (exact_multiway_step hands)
        (List.replicate hands.length ⟨0, 0, 0⟩))

/-! ### C3: Monte Carlo counters sum exactly to the iteration count -/

theorem bump_counts_total (c : EquityCounts) (o : Outcome) :
    (bump_counts c o).total = c.total + 1 := by
  cases o <;> simp [bump_counts, EquityCounts.total] <;> omega

theorem mc_vs_hand_loop_total (hero villain : Nat × Nat) (board : List Nat)
    (missing used0 fuel : Nat) : ∀ (iters : Nat) (s : CardSampler52)
      (counts c : EquityCounts),
    mc_vs_hand_loop hero villain board missing used0 fuel iters s counts = some c →
    c.total = counts.total + iters := by
  intro iters
  induction iters with
  | zero =>
    intro s counts c h
    simp only [mc_vs_hand_loop] at h
    cases h
    omega
  | succ n ih =>
    intro s counts c h
    simp only [mc_vs_hand_loop] at h
    split at h
    · simp at h
    · have hc := ih _ _ _ h
      rw [bump_counts_total] at hc
      omega

theorem mc_vs_random_loop_total (hero : Nat × Nat) (board : List Nat)
    (missing used0 fuel : Nat) : ∀ (iters : Nat) (s : CardSampler52)
      (counts c : EquityCounts),
    mc_vs_random_loop hero board missing used0 fuel iters s counts = some c →
    c.total = counts.total + iters := by
  intro iters
  induction iters with
  | zero =>
    intro s counts c h
    simp only [mc_vs_random_loop] at h
    cases h
    omega
  | succ n ih =>
    intro s counts c h
    simp only [mc_vs_random_loop] at h
    split at h
    · simp at h
    · split at h
      · simp at h
      · have hc := ih _ _ _ h
        rw [bump_counts_total] at hc
        omega

theorem bump_hero_total (w : List Nat) (c : EquityCounts) :
    (bump_hero w c).total = c.total + 1 := by
  simp only [bump_hero]
  split_ifs <;> simp [EquityCounts.total] <;> omega

theorem mc_vs_random_multiway_loop_total (hero : Nat × Nat) (num_villains : Nat)
    (board : List Nat) (missing used0 fuel : Nat) : ∀ (iters : Nat) (s : CardSampler52)
      (counts c : EquityCounts),
    mc_vs_random_multiway_loop hero num_villains board missing used0 fuel iters s counts =
      some c → c.total = counts.total + iters := by
  intro iters
  induction iters with
  | zero =>
    intro s counts c h
    simp only [mc_vs_random_multiway_loop] at h
    cases h
    omega
  | succ n ih =>
    intro s counts c h
    simp only [mc_vs_random_multiway_loop] at h
    split at h
    · simp at h
    · split at h
      · simp at h
      · have hc := ih _ _ _ h
        rw [bump_hero_total] at hc
        omega

theorem bump_multiway_length (w : List Nat) (rs : List EquityCounts) :
    (bump_multiway w rs).length = rs.length := by
  simp only [bump_multiway]
  split_ifs <;> simp

theorem bump_multiway_get_total (w : List Nat) (rs : List EquityCounts) (i : Nat)
    (h1 : i < (bump_multiway w rs).length) (h2 : i < rs.length) :
    ((bump_multiway w rs).get ⟨i, h1⟩).total = (rs.get ⟨i, h2⟩).total + 1 := by
  by_cases hw : (w.length == 1) = true
  · have hbm : bump_multiway w rs = rs.enum.map (fun p =>
        if p.1 ∈ w then { p.2 with win := p.2.win + 1 }
        else { p.2 with lose := p.2.lose + 1 }) := by
      simp only [bump_multiway, if_pos hw]
    rw [List.get_of_eq hbm]
    simp only [List.get_eq_getElem, Fin.coe_cast, List.getElem_map, List.getElem_enum]
    split_ifs <;> simp [EquityCounts.total] <;> omega
  · have hbm : bump_multiway w rs = rs.enum.map (fun p =>
        if p.1 ∈ w then { p.2 with tie := p.2.tie + 1 }
        else { p.2 with lose := p.2.lose + 1 }) := by
      simp only [bump_multiway, if_neg hw]
    rw [List.get_of_eq hbm]
    simp only [List.get_eq_getElem, Fin.coe_cast, List.getElem_map, List.getElem_enum]
    split_ifs <;> simp [EquityCounts.total] <;> omega

theorem mc_multiway_loop_spec (hands : List (Nat × Nat)) (board : List Nat)
    (missing used0 fuel : Nat) : ∀ (iters : Nat) (s : CardSampler52)
      (results res : List EquityCounts),
    mc_multiway_loop hands board missing used0 fuel iters s results = some res →
    res.length = results.length ∧
      ∀ i (hi : i < res.length) (hi2 : i < results.length),
        (res.get ⟨i, hi⟩).total = (results.get ⟨i, hi2⟩).total + iters := by
  intro iters
  induction iters with
  | zero =>
    intro s results res h
    simp only [mc_multiway_loop] at h
    cases h
    exact ⟨rfl, fun i hi hi2 => by simp⟩
  | succ n ih =>
    intro s results res h
    simp only [mc_multiway_loop] at h
    split at h
    · simp at h
    · obtain ⟨hlen, htot⟩ := ih _ _ _ h
      refine ⟨by rw [hlen, bump_multiway_length], ?_⟩
      intro i hi hi2
      rw [htot i hi (by rw [bump_multiway_length]; exact hi2),
        bump_multiway_get_total _ _ i _ hi2]
      omega

theorem map_total_sum (rs : List EquityCounts) (T : Nat)
    (h : ∀ i (hi : i < rs.length), (rs.get ⟨i, hi⟩).total = T) :
    (rs.map EquityCounts.total).sum = rs.length * T := by
  induction rs with
  | nil => simp
  | cons c cs ih =>
    have h0 := h 0 (Nat.succ_pos _)
    have htail : ∀ i (hi : i < cs.length), (cs.get ⟨i, hi⟩).total = T := by
      intro i hi
      have hstep := h (i + 1) (by simpa using Nat.succ_lt_succ hi)
      simpa using hstep
    simp only [List.map_cons, List.sum_cons, List.length_cons, ih htail]
    have h0c : c.total = T := h0
    rw [Nat.succ_mul]
    omega

/-- C3: for every Monte Carlo entry point that returns (the sampling loops
accepted within the fuel bound), each player's counters satisfy
win + tie + lose = iters; for multiway Monte Carlo the counts of every one
of the n players total iters, so their grand total is n * iters. -/
theorem C3_mc_counts_total :
    (∀ hero villain board iters seed fuel c,
      equity_mc_vs_hand_checked hero villain board iters seed fuel = .ok (some c) →
      c.win + c.tie + c.lose = iters) ∧
    (∀ hero board iters seed fuel c,
      equity_mc_vs_random_checked hero board iters seed fuel = .ok (some c) →
      c.win + c.tie + c.lose = iters) ∧
    (∀ hero n board iters seed fuel c,
      equity_mc_vs_random_multiway_checked hero n board iters seed fuel = .ok (some c) →
      c.win + c.tie + c.lose = iters) ∧
    (∀ hands board iters seed fuel rs,
      equity_mc_multiway_checked hands board iters seed fuel = .ok (some rs) →
      rs.length = hands.length ∧
        (∀ i (hi : i < rs.length),
          (rs.get ⟨i, hi⟩).win + (rs.get ⟨i, hi⟩).tie + (rs.get ⟨i, hi⟩).lose = iters) ∧
        (rs.map EquityCounts.total).sum = hands.length * iters) := by
  refine ⟨?_, ?_, ?_, ?_⟩
  · intro hero villain board iters seed fuel c h
    simp only [equity_mc_vs_hand_checked] at h
    split at h
    · simp at h
    · rw [Except.ok.injEq] at h
      have := mc_vs_hand_loop_total hero villain board (5 - board.length) _ fuel iters _ _ c h
      simpa [EquityCounts.total] using this
  · intro hero board iters seed fuel c h
    simp only [equity_mc_vs_random_checked] at h
    split at h
    · simp at h
    · rw [Except.ok.injEq] at h
      have := mc_vs_random_loop_total hero board (5 - board.length) _ fuel iters _ _ c h
      simpa [EquityCounts.total] using this
  · intro hero n board iters seed fuel c h
    simp only [equity_mc_vs_random_multiway_checked] at h
    split at h
    · simp at h
    · split at h
      · simp at h
      · split at h
        · simp at h
        · split at h
          · simp at h
          · rw [Except.ok.injEq] at h
            have := mc_vs_random_multiway_loop_total hero n board (5 - board.length) _ fuel
              iters _ _ c h
            simpa [EquityCounts.total] using this
  · intro hands board iters seed fuel rs h
    simp only [equity_mc_multiway_checked] at h
    split at h
    · simp at h
    · split at h
      · simp at h
      · split at h
        · simp at h
        · split at h
          · simp at h
          · rw [Except.ok.injEq] at h
            obtain ⟨hlen, htot⟩ := mc_multiway_loop_spec hands board (5 - board.length) _
              fuel iters _ _ rs h
            have hlen2 : rs.length = hands.length := by
              rw [hlen, List.length_replicate]
            have htot2 : ∀ i (hi : i < rs.length), (rs.get ⟨i, hi⟩).total = iters := by
              intro i hi
              have hi2 : i < (List.replicate hands.length
                  (⟨0, 0, 0⟩ : EquityCounts)).length := by
                rw [List.length_replicate]
                omega
              have := htot i hi hi2
              simp only [List.get_eq_getElem, List.getElem_replicate] at this
              simpa [EquityCounts.total] using this
            refine ⟨hlen2, fun i hi => htot2 i hi, ?_⟩
            rw [map_total_sum rs iters htot2, hlen2]

/-- Witness for C3: a complete board (no sampling needed), three
iterations; both players play the board's straight flush, so all three
iterations tie. -/
theorem C3_mc_counts_total_witness :
    (⟨0, 3, 0⟩ : EquityCounts).win + (⟨0, 3, 0⟩ : EquityCounts).tie +
      (⟨0, 3, 0⟩ : EquityCounts).lose = 3 :=
  C3_mc_counts_total.1 (0, 1) (2, 3) [4, 5, 6, 7, 8] 3 99 1 ⟨0, 3, 0⟩ rfl

/-! ### C9: Monte Carlo runs are deterministic functions of their inputs -/

/-- C9: each Monte Carlo entry point is a pure function of (hands, board,
iteration count, seed) and the model's fuel bound: equal argument tuples
give bit-identical results.  (The embedding is pure because the Rust code
reads no state beyond its arguments; the sampler is constructed from the
explicit seed.) -/
theorem C9_mc_determinism :
    (∀ hero hero2 villain villain2 board board2 iters iters2 seed seed2 fuel fuel2,
      hero = hero2 → villain = villain2 → board = board2 → iters = iters2 →
        seed = seed2 → fuel = fuel2 →
      equity_mc_vs_hand_checked hero villain board iters seed fuel =
        equity_mc_vs_hand_checked hero2 villain2 board2 iters2 seed2 fuel2) ∧
    (∀ hero hero2 board board2 iters iters2 seed seed2 fuel fuel2,
      hero = hero2 → board = board2 → iters = iters2 → seed = seed2 → fuel = fuel2 →
      equity_mc_vs_random_checked hero board iters seed fuel =
        equity_mc_vs_random_checked hero2 board2 iters2 seed2 fuel2) ∧
    (∀ hero hero2 n n2 board board2 iters iters2 seed seed2 fuel fuel2,
      hero = hero2 → n = n2 → board = board2 → iters = iters2 → seed = seed2 → fuel = fuel2 →
      equity_mc_vs_random_multiway_checked hero n board iters seed fuel =
        equity_mc_vs_random_multiway_checked hero2 n2 board2 iters2 seed2 fuel2) ∧
    (∀ hands hands2 board board2 iters iters2 seed seed2 fuel fuel2,
      hands = hands2 → board = board2 → iters = iters2 → seed = seed2 → fuel = fuel2 →
      equity_mc_multiway_checked hands board iters seed fuel =
        equity_mc_multiway_checked hands2 board2 iters2 seed2 fuel2) := by
  refine ⟨?_, ?_, ?_, ?_⟩
  · intro a a2 b b2 c c2 d d2 e e2 f f2 h1 h2 h3 h4 h5 h6
    subst h1; subst h2; subst h3; subst h4; subst h5; subst h6; rfl
  · intro a a2 b b2 c c2 d d2 e e2 h1 h2 h3 h4 h5
    subst h1; subst h2; subst h3; subst h4; subst h5; rfl
  · intro a a2 b b2 c c2 d d2 e e2 f f2 h1 h2 h3 h4 h5 h6
    subst h1; subst h2; subst h3; subst h4; subst h5; subst h6; rfl
  · intro a a2 b b2 c c2 d d2 e e2 h1 h2 h3 h4 h5
    subst h1; subst h2; subst h3; subst h4; subst h5; rfl

/-- Witness for C9 at concrete inputs. -/
theorem C9_mc_determinism_witness :
    equity_mc_vs_hand_checked (0, 1) (2, 3) [4, 5, 6] 2 7 64 =
      equity_mc_vs_hand_checked (0, 1) (2, 3) [4, 5, 6] 2 7 64 :=
  C9_mc_determinism.1 (0, 1) (0, 1) (2, 3) (2, 3) [4, 5, 6] [4, 5, 6] 2 2 7 7 64 64
    rfl rfl rfl rfl rfl rfl

/-! ### C4: the rejection-sampling loop does not always accept - seed 0 -/

theorem xs_step_zero : xs_step 0 = 0 := by decide

theorem next_u6_zero (s : CardSampler52) (hr : s.rng = 0) (hp : s.pool = 0) :
    s.next_u6.1 = 0 ∧ s.next_u6.2.rng = 0 ∧ s.next_u6.2.pool = 0 := by
  simp only [CardSampler52.next_u6, hr, hp, xs_step_zero]
  split_ifs <;> simp

theorem next_card_id_zero (fuel : Nat) (s : CardSampler52) (hr : s.rng = 0) (hp : s.pool = 0) :
    next_card_id (fuel + 1) s = some (0, s.next_u6.2) := by
  obtain ⟨hv, _, _⟩ := next_u6_zero s hr hp
  simp only [next_card_id, hv]
  rw [if_pos (by omega)]

theorem sample_unused_zero : ∀ (fuel : Nat) (s : CardSampler52), s.rng = 0 → s.pool = 0 →
    ∀ used, used &&& 1 ≠ 0 → sample_unused fuel s used = none := by
  intro fuel
  induction fuel with
  | zero => intro s _ _ used _; rfl
  | succ n ih =>
    intro s hr hp used hu
    obtain ⟨_, hr2, hp2⟩ := next_u6_zero s hr hp
    simp only [sample_unused, next_card_id_zero n s hr hp]
    rw [if_neg (by simpa using hu)]
    exact ih s.next_u6.2 hr2 hp2 used hu

theorem sample_distinct_zero (fuel k : Nat) (s : CardSampler52) (hr : s.rng = 0)
    (hp : s.pool = 0) (used : Nat) (hu : used &&& 1 ≠ 0) :
    sample_distinct_cards fuel (k + 1) s used = none := by
  simp only [sample_distinct_cards, sample_unused_zero fuel s hr hp used hu]

/-- C4: the claim that the rejection-sampling loop always eventually
accepts, for every seed, is false on the code.  With seed 0 the xorshift
state is the fixed point 0, so every 6-bit chunk is 0 (card id 0); when
card 0 is already used - here hero holds it - the loop never accepts:
equity_mc_vs_hand_checked runs forever (modelled: it returns none, "fuel
exhausted", for every fuel bound). -/
theorem C4_seed_zero_never_accepts :
    ∀ fuel, equity_mc_vs_hand_checked (0, 1) (2, 3) [] 1 0 fuel = .ok none := by
  intro fuel
  have hval : validate_inputs (0, 1) (some (2, 3)) [] = .ok 15 := rfl
  have hr : (CardSampler52.new 0).rng = 0 := by simp [CardSampler52.new, xs_step_zero]
  have hp : (CardSampler52.new 0).pool = 0 := by simp [CardSampler52.new, xs_step_zero]
  have hsd : sample_distinct_cards fuel 5 (CardSampler52.new 0) 15 = none :=
    sample_distinct_zero fuel 4 _ hr hp 15 (by decide)
  simp only [equity_mc_vs_hand_checked, hval, List.length_nil, Nat.sub_zero,
    mc_vs_hand_loop, hsd]

/-! ### C5: validation order -/

/-- C5 counterexample: hero's first card (60) is out of range AND the board
has six cards; the checked entry point reports the board-length error, not
the hero-card error, because validate_inputs checks the board length before
any card. -/
theorem C5_board_length_checked_first :
    equity_exact_vs_hand_checked (60, 61) (2, 3) [4, 5, 6, 7, 8, 9] =
      .error (.TooManyBoardCards 6) ∧
    (Except.error (EquityError.TooManyBoardCards 6) :
        Except EquityError EquityCounts) ≠ .error (.CardOutOfRange 60) := by
  exact ⟨rfl, by decide⟩

theorem except_bind_error_eq {α β : Type} (e : EquityError) (f : α → Except EquityError β) :
    (Except.error e >>= f : Except EquityError β) = Except.error e := rfl

theorem except_bind_ok_eq {α β : Type} (a : α) (f : α → Except EquityError β) :
    (Except.ok a >>= f : Except EquityError β) = f a := rfl

theorem foldlM_cons_eq {σ α : Type} (f : σ → α → Except EquityError σ) (b : σ) (a : α)
    (l : List α) :
    List.foldlM f b (a :: l) = f b a >>= fun b2 => List.foldlM f b2 l := rfl

theorem foldlM_nil_eq {σ α : Type} (f : σ → α → Except EquityError σ) (b : σ) :
    List.foldlM f b ([] : List α) = Except.ok b := rfl

theorem cards_mask_testBit (l : List Nat) (c : Nat) :
    (cards_mask l).testBit c = true ↔ c ∈ l := by
  induction l with
  | nil => simp [cards_mask]
  | cons x xs ih =>
    simp only [cards_mask, Nat.testBit_or, Bool.or_eq_true, List.mem_cons, ih]
    constructor
    · rintro (h | h)
      · left
        by_contra hne
        rw [Nat.one_shiftLeft, Nat.testBit_two_pow_of_ne (fun he => hne he.symm)] at h
        exact Bool.false_ne_true h
      · right; exact h
    · rintro (rfl | h)
      · left; rw [Nat.one_shiftLeft]; exact Nat.testBit_two_pow_self
      · right; exact h

theorem except_match_bind {α β : Type} (x : Except EquityError α)
    (f : α → Except EquityError β) :
    (match x with | .error e => Except.error e | .ok a => f a) = x >>= f := by
  cases x <;> rfl

theorem validate_inputs_eq_foldlM (hero : Nat × Nat) (villain : Option (Nat × Nat))
    (board : List Nat) :
    validate_inputs hero villain board =
      if 5 < board.length then .error (.TooManyBoardCards board.length)
      else List.foldlM add_used 0 (hero.1 :: hero.2 :: (villain_cards villain ++ board)) := by
  by_cases hb : 5 < board.length
  · simp only [validate_inputs, if_pos hb]
  · cases villain with
    | none =>
      simp only [validate_inputs, if_neg hb, villain_cards, List.nil_append,
        foldlM_cons_eq]
      split
      next e h1 => rw [h1]; rfl
      next u1 h1 =>
        rw [h1, except_bind_ok_eq]
        split
        next e h2 => rw [h2]; rfl
        next u2 h2 => rw [h2, except_bind_ok_eq]
    | some v =>
      simp only [validate_inputs, if_neg hb, villain_cards, List.cons_append,
        List.nil_append, foldlM_cons_eq]
      split
      next e h1 => rw [h1]; rfl
      next u1 h1 =>
        rw [h1, except_bind_ok_eq]
        split
        next e h2 => rw [h2]; rfl
        next u2 h2 =>
          rw [h2, except_bind_ok_eq]
          cases h3 : add_used u2 v.1 with
          | error e => rfl
          | ok u3 =>
            rw [except_bind_ok_eq]
            show (match add_used u3 v.2 with
              | Except.error e => Except.error e
              | Except.ok u4 => List.foldlM add_used u4 board) = _
            split
            next e h4 => rw [h4]; rfl
            next u4 h4 => rw [h4, except_bind_ok_eq]

theorem foldlM_add_used_ok (l : List Nat) : ∀ (used : Nat),
    (∀ x ∈ l, x < 52 ∧ used &&& (1 <<< x) = 0) → l.Nodup →
    List.foldlM add_used used l = .ok (used ||| cards_mask l) := by
  induction l with
  | nil =>
    intro used _ _
    rw [foldlM_nil_eq]
    simp only [cards_mask, Nat.or_zero]
  | cons x xs ih =>
    intro used hall hnd
    obtain ⟨hx52, hxfresh⟩ := hall x (List.mem_cons_self x xs)
    obtain ⟨hxnotin, hndtail⟩ := List.nodup_cons.mp hnd
    have hstep : add_used used x = .ok (used ||| 1 <<< x) := by
      simp [add_used, card_bit, if_neg (by omega : ¬ 52 ≤ x), hxfresh]
    rw [foldlM_cons_eq, hstep, except_bind_ok_eq]
    rw [ih (used ||| 1 <<< x) ?_ hndtail]
    · simp only [cards_mask, ← Nat.lor_assoc]
    · intro y hy
      obtain ⟨hy52, hyfresh⟩ := hall y (List.mem_cons_of_mem x hy)
      refine ⟨hy52, ?_⟩
      have hxy : x ≠ y := fun he => hxnotin (he ▸ hy)
      have hbits : (1 <<< x) &&& (1 <<< y) = 0 := by
        rw [Nat.one_shiftLeft, Nat.one_shiftLeft, Nat.and_two_pow,
          Nat.testBit_two_pow_of_ne hxy]
        simp
      rw [Nat.and_distrib_right, hyfresh, hbits, Nat.zero_or]

theorem foldlM_add_used_first_err (pre : List Nat) : ∀ (used c : Nat) (rest : List Nat),
    (∀ x ∈ pre, x < 52 ∧ used &&& (1 <<< x) = 0) → pre.Nodup →
    (52 ≤ c ∨ (used ||| cards_mask pre) &&& (1 <<< c) ≠ 0) →
    List.foldlM add_used used (pre ++ c :: rest) =
      .error (if 52 ≤ c then EquityError.CardOutOfRange c else EquityError.DuplicateCard c) := by
  induction pre with
  | nil =>
    intro used c rest _ _ hviol
    simp only [List.nil_append]
    by_cases hc : 52 ≤ c
    · have hstep : add_used used c = .error (.CardOutOfRange c) := by
        simp [add_used, card_bit, if_pos hc]
      rw [if_pos hc, foldlM_cons_eq, hstep, except_bind_error_eq]
    · have hdup : used &&& 1 <<< c ≠ 0 := by
        rcases hviol with h | h
        · exact absurd h hc
        · simpa [cards_mask] using h
      have hstep : add_used used c = .error (.DuplicateCard c) := by
        simp only [add_used, card_bit, if_neg hc]
        rw [if_pos hdup]
      rw [if_neg hc, foldlM_cons_eq, hstep, except_bind_error_eq]
  | cons x xs ih =>
    intro used c rest hall hnd hviol
    obtain ⟨hx52, hxfresh⟩ := hall x (List.mem_cons_self x xs)
    obtain ⟨hxnotin, hndtail⟩ := List.nodup_cons.mp hnd
    have hstep : add_used used x = .ok (used ||| 1 <<< x) := by
      simp [add_used, card_bit, if_neg (by omega : ¬ 52 ≤ x), hxfresh]
    simp only [List.cons_append]
    rw [foldlM_cons_eq, hstep, except_bind_ok_eq]
    apply ih (used ||| 1 <<< x) c rest
    · intro y hy
      obtain ⟨hy52, hyfresh⟩ := hall y (List.mem_cons_of_mem x hy)
      refine ⟨hy52, ?_⟩
      have hxy : x ≠ y := fun he => hxnotin (he ▸ hy)
      have hbits : (1 <<< x) &&& (1 <<< y) = 0 := by
        rw [Nat.one_shiftLeft, Nat.one_shiftLeft, Nat.and_two_pow,
          Nat.testBit_two_pow_of_ne hxy]
        simp
      rw [Nat.and_distrib_right, hyfresh, hbits, Nat.zero_or]
    · exact hndtail
    · rcases hviol with h | h
      · exact Or.inl h
      · refine Or.inr ?_
        have hmask : used ||| cards_mask (x :: xs) = (used ||| 1 <<< x) ||| cards_mask xs := by
          simp only [cards_mask, ← Nat.lor_assoc]
        rw [hmask] at h
        exact h

/-- C5 (amended): validate_inputs checks the board-length bound first -
for any inputs with more than 5 board cards the error is TooManyBoardCards,
even when hero or villain cards are also invalid; once the board has at
most 5 cards, validation walks the card ids in the order hero's two cards,
then the villain's cards, then the board cards, and reports the first
out-of-range or duplicate card found in that order (an out-of-range id c
gives CardOutOfRange c, a repeat of an earlier id gives DuplicateCard c);
when no card violates, validation succeeds with the occupancy mask of all
the cards. -/
theorem C5_validation_order_amended :
    (∀ (hero : Nat × Nat) (villain : Option (Nat × Nat)) (board : List Nat),
      5 < board.length →
      validate_inputs hero villain board = .error (.TooManyBoardCards board.length)) ∧
    (∀ (hero : Nat × Nat) (villain : Option (Nat × Nat)) (board : List Nat)
      (pre : List Nat) (c : Nat) (rest : List Nat),
      board.length ≤ 5 →
      hero.1 :: hero.2 :: (villain_cards villain ++ board) = pre ++ c :: rest →
      (∀ x ∈ pre, x < 52) → pre.Nodup →
      (52 ≤ c ∨ c ∈ pre) →
      validate_inputs hero villain board =
        .error (if 52 ≤ c then EquityError.CardOutOfRange c else EquityError.DuplicateCard c)) ∧
    (∀ (hero : Nat × Nat) (villain : Option (Nat × Nat)) (board : List Nat),
      board.length ≤ 5 →
      (∀ x ∈ hero.1 :: hero.2 :: (villain_cards villain ++ board), x < 52) →
      (hero.1 :: hero.2 :: (villain_cards villain ++ board)).Nodup →
      validate_inputs hero villain board =
        .ok (cards_mask (hero.1 :: hero.2 :: (villain_cards villain ++ board)))) := by
  refine ⟨?_, ?_, ?_⟩
  · intro hero villain board hb
    simp only [validate_inputs, if_pos hb]
  · intro hero villain board pre c rest hb heq hall hnd hviol
    rw [validate_inputs_eq_foldlM, if_neg (by omega : ¬ 5 < board.length), heq]
    apply foldlM_add_used_first_err pre 0 c rest
    · intro x hx
      exact ⟨hall x hx, by rw [Nat.zero_and]⟩
    · exact hnd
    · rcases hviol with h | h
      · exact Or.inl h
      · refine Or.inr ?_
        rw [Nat.zero_or]
        exact (testBit_iff_and_shift (cards_mask pre) c).mp ((cards_mask_testBit pre c).mpr h)
  · intro hero villain board hb hall hnd
    rw [validate_inputs_eq_foldlM, if_neg (by omega : ¬ 5 < board.length),
      foldlM_add_used_ok _ 0 (fun x hx => ⟨hall x hx, by rw [Nat.zero_and]⟩) hnd,
      Nat.zero_or]

/-- Witness for the amended C5 at concrete inputs: an over-long board
dominating invalid hero cards, an out-of-range second villain card, a
board card duplicating a villain card, and a fully valid input. -/
theorem C5_validation_order_amended_witness :
    validate_inputs (60, 61) (some (2, 3)) [4, 5, 6, 7, 8, 9] =
      .error (.TooManyBoardCards 6) ∧
    validate_inputs (0, 1) (some (2, 99)) [50, 51] = .error (.CardOutOfRange 99) ∧
    validate_inputs (0, 1) (some (2, 3)) [4, 2] = .error (.DuplicateCard 2) ∧
    validate_inputs (0, 1) (some (2, 3)) [4, 5] = .ok 63 :=
  ⟨C5_validation_order_amended.1 (60, 61) (some (2, 3)) [4, 5, 6, 7, 8, 9] (by decide),
   C5_validation_order_amended.2.1 (0, 1) (some (2, 99)) [50, 51] [0, 1, 2] 99 [50, 51] (by decide) rfl
     (by decide) (by decide) (Or.inl (by decide)),
   C5_validation_order_amended.2.1 (0, 1) (some (2, 3)) [4, 2] [0, 1, 2, 3, 4] 2 [] (by decide) rfl
     (by decide) (by decide) (Or.inr (by decide)),
   C5_validation_order_amended.2.2 (0, 1) (some (2, 3)) [4, 5] (by decide) (by decide) (by decide)⟩

/-! ### C8: exact enumeration produces exactly C(u, 5-k) trials -/

theorem length_flatMap {α β : Type _} (l : List α) (f : α → List β) :
    (l.flatMap f).length = (l.map (fun a => (f a).length)).sum := by
  induction l with
  | nil => rfl
  | cons x xs ih => simp [List.flatMap_cons, ih]

theorem mem_range'_lt (s n j : Nat) (h : j ∈ List.range' s n) : j < s + n := by
  rcases List.mem_range'.mp h with ⟨i, hi, rfl⟩
  omega

/-- Hockey-stick style identity for the descending nested loops: summing
the binomial counts of the inner loop over one loop level gives the
binomial count one order higher. -/
theorem sum_choose_desc (k m : Nat) : ∀ (n a : Nat), a + n = m - k →
    ((List.range' a n).map (fun j => Nat.choose (m - (j + 1)) k)).sum =
      Nat.choose (m - a) (k + 1) := by
  intro n
  induction n with
  | zero =>
    intro a ha
    have hma : m - a ≤ k := by omega
    simp [Nat.choose_eq_zero_of_lt (by omega : m - a < k + 1)]
  | succ n ih =>
    intro a ha
    rw [List.range'_succ, List.map_cons, List.sum_cons, ih (a + 1) (by omega)]
    have h1 : m - a = (m - (a + 1)) + 1 := by omega
    rw [h1, Nat.choose_succ_succ']

theorem map_choose_len {α : Type _} (g : Nat → α) (s m : Nat) :
    ((List.range' s (m - s)).map g).length = Nat.choose (m - s) 1 := by
  simp [Nat.choose_one_right]

theorem flatMap_choose_len {α : Type _} (f : Nat → List α) (s n k m : Nat)
    (hf : ∀ j ∈ List.range' s n, (f j).length = Nat.choose (m - (j + 1)) k)
    (h : s + n = m - k) :
    ((List.range' s n).flatMap f).length = Nat.choose (m - s) (k + 1) := by
  rw [length_flatMap, List.map_congr_left hf, sum_choose_desc k m n s h]

/-- The specialized nested loops of enumerate_board_completions make
exactly C(rem.length, missing) calls. -/
theorem enumerate_board_completions_length (rem known : List Nat) (missing : Nat)
    (hm : missing ≤ 5) :
    (enumerate_board_completions rem known missing).length =
      Nat.choose rem.length missing := by
  interval_cases missing
  · simp [enumerate_board_completions]
  · simp [enumerate_board_completions, Nat.choose_one_right]
  · simp only [enumerate_board_completions]
    rw [List.range_eq_range']
    have h1 : ∀ i ∈ List.range' 0 (rem.length - 1),
        ((List.range' (i + 1) (rem.length - (i + 1))).map (fun j =>
          known ++ [rem.getD i 0, rem.getD j 0])).length =
          Nat.choose (rem.length - (i + 1)) 1 := by
      intro i _
      exact map_choose_len _ _ rem.length
    rw [flatMap_choose_len _ 0 (rem.length - 1) 1 rem.length h1 (by omega)]
    simp
  · simp only [enumerate_board_completions]
    rw [List.range_eq_range']
    have h1 : ∀ i ∈ List.range' 0 (rem.length - 2),
        ((List.range' (i + 1) ((rem.length - 1) - (i + 1))).flatMap (fun j =>
          (List.range' (j + 1) (rem.length - (j + 1))).map (fun k =>
            known ++ [rem.getD i 0, rem.getD j 0, rem.getD k 0]))).length =
          Nat.choose (rem.length - (i + 1)) 2 := by
      intro i hi
      have hib := mem_range'_lt 0 (rem.length - 2) i hi
      refine flatMap_choose_len _ (i + 1) ((rem.length - 1) - (i + 1)) 1 rem.length
        (fun j _ => map_choose_len _ _ rem.length) (by omega)
    rw [flatMap_choose_len _ 0 (rem.length - 2) 2 rem.length h1 (by omega)]
    simp
  · simp only [enumerate_board_completions]
    rw [List.range_eq_range']
    have h1 : ∀ i ∈ List.range' 0 (rem.length - 3),
        ((List.range' (i + 1) ((rem.length - 2) - (i + 1))).flatMap (fun j =>
          (List.range' (j + 1) ((rem.length - 1) - (j + 1))).flatMap (fun k =>
            (List.range' (k + 1) (rem.length - (k + 1))).map (fun l =>
              known ++ [rem.getD i 0, rem.getD j 0, rem.getD k 0, rem.getD l 0])))).length =
          Nat.choose (rem.length - (i + 1)) 3 := by
      intro i hi
      have hib := mem_range'_lt 0 (rem.length - 3) i hi
      refine flatMap_choose_len _ (i + 1) ((rem.length - 2) - (i + 1)) 2 rem.length
        (fun j hj => ?_) (by omega)
      have hjb := mem_range'_lt (i + 1) ((rem.length - 2) - (i + 1)) j hj
      refine flatMap_choose_len _ (j + 1) ((rem.length - 1) - (j + 1)) 1 rem.length
        (fun k _ => map_choose_len _ _ rem.length) (by omega)
    rw [flatMap_choose_len _ 0 (rem.length - 3) 3 rem.length h1 (by omega)]
    simp
  · simp only [enumerate_board_completions]
    rw [List.range_eq_range']
    have h1 : ∀ i ∈ List.range' 0 (rem.length - 4),
        ((List.range' (i + 1) ((rem.length - 3) - (i + 1))).flatMap (fun j =>
          (List.range' (j + 1) ((rem.length - 2) - (j + 1))).flatMap (fun k =>
            (List.range' (k + 1) ((rem.length - 1) - (k + 1))).flatMap (fun l =>
              (List.range' (l + 1) (rem.length - (l + 1))).map (fun p =>
                known ++ [rem.getD i 0, rem.getD j 0, rem.getD k 0, rem.getD l 0,
                  rem.getD p 0]))))).length =
          Nat.choose (rem.length - (i + 1)) 4 := by
      intro i hi
      have hib := mem_range'_lt 0 (rem.length - 4) i hi
      refine flatMap_choose_len _ (i + 1) ((rem.length - 3) - (i + 1)) 3 rem.length
        (fun j hj => ?_) (by omega)
      have hjb := mem_range'_lt (i + 1) ((rem.length - 3) - (i + 1)) j hj
      refine flatMap_choose_len _ (j + 1) ((rem.length - 2) - (j + 1)) 2 rem.length
        (fun k hk => ?_) (by omega)
      have hkb := mem_range'_lt (j + 1) ((rem.length - 2) - (j + 1)) k hk
      refine flatMap_choose_len _ (k + 1) ((rem.length - 1) - (k + 1)) 1 rem.length
        (fun l _ => map_choose_len _ _ rem.length) (by omega)
    rw [flatMap_choose_len _ 0 (rem.length - 4) 4 rem.length h1 (by omega)]
    simp

theorem foldl_bump_total (hero villain : Nat × Nat) (l : List (List Nat)) :
    ∀ c0 : EquityCounts,
    (l.foldl (fun counts b5 =>
      bump_counts counts (eval_two_players_unchecked hero villain b5)) c0).total =
      c0.total + l.length := by
  induction l with
  | nil => intro c0; simp
  | cons b5 bs ih =>
    intro c0
    simp only [List.foldl_cons, List.length_cons, ih, bump_counts_total]
    omega

theorem exact_multiway_step_length (hands : List (Nat × Nat)) (rs : List EquityCounts)
    (b5 : List Nat) : (exact_multiway_step hands rs b5).length = rs.length := by
  simp only [exact_multiway_step]
  exact bump_multiway_length _ _

theorem foldl_multiway_length (hands : List (Nat × Nat)) (l : List (List Nat)) :
    ∀ rs0 : List EquityCounts,
      (l.foldl (exact_multiway_step hands) rs0).length = rs0.length := by
  induction l with
  | nil => intro rs0; rfl
  | cons b5 bs ih =>
    intro rs0
    rw [List.foldl_cons, ih, exact_multiway_step_length]

theorem getD_eq_get (l : List EquityCounts) (i : Nat) (h : i < l.length) :
    l.getD i ⟨0, 0, 0⟩ = l.get ⟨i, h⟩ := by
  rw [List.getD_eq_getElem?_getD, List.getElem?_eq_getElem h]
  rfl

theorem bump_multiway_getD_total (w : List Nat) (rs : List EquityCounts) (i : Nat)
    (h2 : i < rs.length) :
    ((bump_multiway w rs).getD i ⟨0, 0, 0⟩).total = (rs.getD i ⟨0, 0, 0⟩).total + 1 := by
  have hb : i < (bump_multiway w rs).length := by rw [bump_multiway_length]; exact h2
  rw [getD_eq_get _ i hb, getD_eq_get _ i h2]
  exact bump_multiway_get_total w rs i hb h2

theorem foldl_multiway_getD_total (hands : List (Nat × Nat)) (l : List (List Nat)) :
    ∀ (rs0 : List EquityCounts) (i : Nat), i < rs0.length →
      ((l.foldl (exact_multiway_step hands) rs0).getD i ⟨0, 0, 0⟩).total =
        (rs0.getD i ⟨0, 0, 0⟩).total + l.length := by
  induction l with
  | nil => intro rs0 i hi2; simp
  | cons b5 bs ih =>
    intro rs0 i hi2
    rw [List.foldl_cons,
      ih _ i (by rw [exact_multiway_step_length]; exact hi2)]
    simp only [exact_multiway_step]
    rw [bump_multiway_getD_total _ _ i hi2]
    simp only [List.length_cons]
    omega

/-- C8: for every exact-enumeration call that succeeds (heads-up against a
known villain, or multiway), the returned total of each player equals
C(u, 5 - k), where k is the number of known board cards and u the number
of unused deck cards left after removing the players' hole cards and the
known board. -/
theorem C8_exact_enumeration_totals :
    (∀ hero villain board used0 c,
      validate_inputs hero (some villain) board = .ok used0 →
      equity_exact_vs_hand_checked hero villain board = .ok c →
      c.total = Nat.choose (fill_remaining_cards used0).length (5 - board.length)) ∧
    (∀ hands board used rs,
      validate_multiway_used hands board = .ok used →
      equity_exact_multiway_checked hands board = .ok rs →
      ∀ i (hi : i < rs.length),
        (rs.get ⟨i, hi⟩).total =
          Nat.choose (fill_remaining_cards used).length (5 - board.length)) := by
  constructor
  · intro hero villain board used0 c hval h
    simp only [equity_exact_vs_hand_checked, hval] at h
    rw [Except.ok.injEq] at h
    rw [← h, foldl_bump_total,
      enumerate_board_completions_length _ board (5 - board.length) (by omega)]
    simp [EquityCounts.total]
  · intro hands board used rs hval h
    simp only [equity_exact_multiway_checked] at h
    split at h
    · simp at h
    · split at h
      · simp at h
      · split at h
        · simp at h
        · rw [hval] at h
          simp only [Except.ok.injEq] at h
          subst h
          intro i hi
          have hi2 : i < (List.replicate hands.length (⟨0, 0, 0⟩ : EquityCounts)).length := by
            rw [foldl_multiway_length] at hi
            exact hi
          rw [← getD_eq_get _ i hi,
            foldl_multiway_getD_total hands _ _ i hi2,
            getD_eq_get _ i hi2]
          simp only [List.get_eq_getElem, List.getElem_replicate]
          rw [enumerate_board_completions_length _ board (5 - board.length) (by omega)]
          simp [EquityCounts.total]

/-- Witness for C8: a complete 5-card board, so 5 - k = 0 and exactly
C(43, 0) = 1 trial. -/
theorem C8_exact_enumeration_totals_witness :
    (⟨0, 1, 0⟩ : EquityCounts).total =
      Nat.choose (fill_remaining_cards 511).length (5 - ([4, 5, 6, 7, 8] : List Nat).length) :=
  C8_exact_enumeration_totals.1 (0, 1) (2, 3) [4, 5, 6, 7, 8] 511 ⟨0, 1, 0⟩ rfl rfl

/-! ### Sanity checks for the equity embedding (mirroring the repository's
tests) -/

example :
    compare_showdown_checked (12, 25) (11, 24) [0, 14, 28, 42, 7] = .ok .HeroWin := rfl

example :
    equity_exact_vs_hand_checked (0, 1) (2, 3) [4, 5, 6, 7, 8] = .ok ⟨0, 1, 0⟩ := rfl

example :
    equity_exact_multiway_checked [(0, 1), (13, 14), (26, 27)] [51, 50, 49, 48, 47] =
      .ok [⟨0, 1, 0⟩, ⟨0, 1, 0⟩, ⟨0, 1, 0⟩] := rfl

example :
    (match equity_mc_vs_hand_checked (0, 1) (2, 3) [4, 5, 6] 5 123 64 with
      | .ok (some c) => c.total
      | _ => 0) = 5 := by decide

example :
    (match equity_mc_multiway_checked [(0, 1), (2, 3), (4, 5)] [6, 7, 8] 3 456 64 with
      | .ok (some rs) => rs.map EquityCounts.total
      | _ => []) = [3, 3, 3] := by decide

end Palmistry
